import Mathlib

/-!
# soterdash census: a shallow embedding of the enumeration engine

The Go package `census` (files `node.go`, `enumeration.go`, `worker.go`) keeps a
registry `map[string]*Node` of the peers it knows and lets a pool of workers
poll them.  The embedding below keeps the pointer structure of the source:

* a `*Node` is an address `Ptr` into a `Heap`; two pointers are the same node
  exactly when they are the same address;
* `map[string]*Node` is an association list with pairwise distinct keys; a
  `range` over the map visits the entries in list order, and since every
  statement is made for every such list, it is made for every iteration order;
* `time.Time` and `time.Duration` are exact integer instants (nanoseconds);
  `time.Now()` is an input;
* the `int32` lease `Node.busy` is an integer, `free = 0`, `busy = 1`;
* the locks (`nodesLock`, `updateLock`) serialise the bodies they guard, so each
  guarded body is one atomic step on the state;
* the driver calls made by a poll (`driver/soterd.go`) are answered by a record
  of outcomes, and `IsConnectedTo` itself is embedded with the standard library
  function `net.SplitHostPort` as a parameter;
* the `int32` guards of `Start` and `Stop` wrap around as `atomic.AddInt32` does;
* `sortPeers` (`models.go`) is embedded with the loop variable of its `range`
  loop as one memory cell.
-/

namespace Census

/-! ## Data model (`node.go`, `enumeration.go`) -/

/-- A `*Node`: the address of a node record in the heap. -/
abbrev Ptr := Nat

/-- An instant (`time.Time`), in nanoseconds counted from the zero `time.Time`. -/
abbrev Time := Int

/-- A `time.Duration`, in nanoseconds. -/
abbrev Duration := Int

/-- The value of `busy` for a node that is not being checked by a worker. -/
def free : Int := 0

/-- The value of `busy` for a node that is being checked by a worker. -/
def busy : Int := 1

/-- The record `Node` of `node.go` (the `updateLock` carries no data). -/
structure Node where
  Address : String
  Version : String
  Hops : Int
  Online : Bool
  connections : List Ptr
  LastChecked : Time
  busy : Int
  deriving DecidableEq, Repr

/-- The Go zero value of `Node`, as produced by `Node{}`. -/
def Node.zero : Node :=
  { Address := "", Version := "", Hops := 0, Online := false, connections := [],
    LastChecked := 0, busy := 0 }

instance : Inhabited Node := ⟨Node.zero⟩

/-- The memory holding every node record: `cell p` is the record at address `p`,
and `next` is the first address that has not been handed out yet. -/
structure Heap where
  cell : Ptr → Node
  next : Nat

/-- Store the record `v` at address `p`. -/
def Heap.write (h : Heap) (p : Ptr) (v : Node) : Heap :=
  { h with cell := Function.update h.cell p v }

/-- Allocate a new record (`&pn` for a fresh local `pn`): it lives at `h.next`. -/
def Heap.alloc (h : Heap) (v : Node) : Ptr × Heap :=
  (h.next, { cell := Function.update h.cell h.next v, next := h.next + 1 })

/-- The Go type `map[string]*Node`. -/
abbrev NodeMap := AList (fun _ : String => Ptr)

/-- The data fields of `Enumerator` (`enumeration.go`); the locks, the wait
group and the channels carry no data read by the registry operations. -/
structure Enumerator where
  seeds : List Ptr
  nodes : NodeMap
  interval : Duration
  maxWorkers : Int
  started : Int
  shutdown : Int

/-! ## Node methods (`node.go`) -/

/-- Go `t.Add(d)` on exact instants. -/
def Time.Add (t : Time) (d : Duration) : Time := t + d

/-- Go `t.Before(u)` on exact instants. -/
def Time.Before (t u : Time) : Bool := decide (t < u)

/-- Go `atomic.CompareAndSwapInt32(&v, old, new)` on the value `v`: the flag
returned and the value left in place. -/
def compareAndSwap (v old new : Int) : Bool × Int :=
  if v = old then (true, new) else (false, v)

/-- Method `isBusy` of `node.go`. -/
def Node.isBusy (n : Node) : Bool :=
  let v := n.busy
  if v = Census.free then false else true

/-- Method `IsStale` of `node.go`; `now` is the value `time.Now()` returns. -/
def Node.IsStale (n : Node) (d : Duration) (now : Time) : Bool :=
  Time.Before (Time.Add n.LastChecked d) now

/-- Method `reserve` of `node.go`: the flag returned and the node afterwards. -/
def Node.reserve (n : Node) : Bool × Node :=
  let r := compareAndSwap n.busy Census.free Census.busy
  (r.1, { n with busy := r.2 })

/-- The Go composite literal `Node{Address: a}`: every other field is zero. -/
def Node.ofAddress (a : String) : Node :=
  { Address := a, Version := "", Hops := 0, Online := false, connections := [],
    LastChecked := 0, busy := 0 }

/-- The assignment `n.Online = b` (made under `updateLock` in `checkNode`). -/
def Node.setOnline (n : Node) (b : Bool) : Node :=
  { n with Online := b }

/-- The assignment `n.Version = v` (made under `updateLock` in `checkNode`). -/
def Node.setVersion (n : Node) (v : String) : Node :=
  { n with Version := v }

/-- The three assignments `n.connections = conns`, `n.Online = true`,
`n.LastChecked = now` made under one `updateLock` at the end of `checkNode`. -/
def Node.setPolled (n : Node) (conns : List Ptr) (now : Time) : Node :=
  { n with connections := conns, Online := true, LastChecked := now }

/-- Method `free` of `node.go` (`atomic.StoreInt32(&n.busy, free)`). -/
def Node.free (n : Node) : Node :=
  { n with busy := Census.free }

/-- Function `allFresh` of `node.go` over the nodes still to visit; `clock k` is
the value of `time.Now()` read by the `IsStale` call on the first of them,
`clock (k + 1)` by the call on the next, and so on. -/
def allFresh (h : Heap) (d : Duration) (clock : Nat → Time) : List Ptr → Nat → Bool
  | [], _ => true
  | n :: rest, k =>
    if (h.cell n).IsStale d (clock k) then false else allFresh h d clock rest (k + 1)

/-! ## Registry operations (`enumeration.go`) -/

/-- Function `New` of `enumeration.go`: the registry starts empty. -/
def New (seeds : List Ptr) (interval : Duration) (workers : Int) : Enumerator :=
  { seeds := seeds, nodes := ∅, interval := interval, maxWorkers := workers,
    started := 0, shutdown := 0 }

/-- Method `AddToCensus` of `enumeration.go`. -/
def Enumerator.AddToCensus (h : Heap) (e : Enumerator) (n : Ptr) : Enumerator :=
  let exists_ := (e.nodes.lookup (h.cell n).Address).isSome
  if !exists_ then { e with nodes := e.nodes.insert (h.cell n).Address n } else e

/-- Method `Get` of `enumeration.go`: the pointer found (`none` is `nil`) and
the flag `exists`. -/
def Enumerator.Get (e : Enumerator) (a : String) : Option Ptr × Bool :=
  (e.nodes.lookup a, (e.nodes.lookup a).isSome)

/-- Method `IsInCensus` of `enumeration.go`. -/
def Enumerator.IsInCensus (h : Heap) (e : Enumerator) (n : Ptr) : Bool :=
  (e.nodes.lookup (h.cell n).Address).isSome

/-- Method `Nodes` of `enumeration.go`: the values in iteration order. -/
def Enumerator.Nodes (e : Enumerator) : List Ptr :=
  e.nodes.entries.map (fun kv => kv.2)

/-- Method `RemoveFromCensus` of `enumeration.go`. -/
def Enumerator.RemoveFromCensus (h : Heap) (e : Enumerator) (n : Ptr) : Enumerator :=
  { e with nodes := e.nodes.erase (h.cell n).Address }

/-- The number of entries of the registry (`len(e.nodes)`). -/
def Enumerator.size (e : Enumerator) : Nat := e.nodes.entries.length

/-! ## Scheduling (`enumeration.go`) -/

/-- Modelled from the spec: the method `isStale` that `pickNode` calls is not
declared in the source (`node.go` declares `IsStale`); the spec gives
`isStale(d)` as true iff `LastChecked + d` is strictly before "now", false at
the exact boundary. -/
def Node.isStale (n : Node) (d : Duration) (now : Time) : Bool :=
  decide (n.LastChecked + d < now)

/-- The loop `for _, n := range e.nodes` of `pickNode` over the entries still to
visit.  `k` counts the nodes examined so far and `clock k` is the value of
`time.Now()` read while examining the node with index `k`. -/
def pickNodeLoop (interval : Duration) (clock : Nat → Time) :
    List (Sigma fun _ : String => Ptr) → Nat → Heap → (Option Ptr × Bool) × Heap
  | [], _, h => ((none, false), h)
  | kv :: rest, k, h =>
    if !((h.cell kv.2).isStale interval (clock k)) then
      pickNodeLoop interval clock rest (k + 1) h
    else
      let r := (h.cell kv.2).reserve
      let h1 := h.write kv.2 r.2
      if r.1 then ((some kv.2, true), h1)
      else pickNodeLoop interval clock rest (k + 1) h1

/-- Method `pickNode` of `enumeration.go`: the pair returned (`none` is `nil`)
and the heap afterwards. -/
def Enumerator.pickNode (e : Enumerator) (h : Heap) (clock : Nat → Time) :
    (Option Ptr × Bool) × Heap :=
  pickNodeLoop e.interval clock e.nodes.entries 0 h

/-! ## Concurrent reservation (`node.go`) -/

/-- Several callers run `reserve` on one node.  Each call is a single atomic
compare-and-swap, so the calls take effect one after the other in some order:
`callers` lists the callers in that order.  The result pairs each caller with
the flag it got, and gives the node afterwards. -/
def reserveCalls : List Nat → Node → List (Nat × Bool) × Node
  | [], n => ([], n)
  | c :: cs, n =>
    let r := n.reserve
    let rest := reserveCalls cs r.2
    ((c, r.1) :: rest.1, rest.2)

/-- The number of calls of a run that returned `flag`. -/
def countFlag (flag : Bool) (results : List (Nat × Bool)) : Nat :=
  (results.filter (fun r => r.2 == flag)).length

/-! ## Polling (`worker.go`) -/

/-- A Go `error` value, by its message. -/
abbrev Error := String

/-- What the worker's driver answers during one `checkNode`: `c.GetInfo()` gives
`info.Version` or an error, `w.soterd.IsConnectedTo(a)` a flag or an error,
`c.AddNode(a, ANAdd)` an error or `nil` (`none`), and `w.soterd.Addrs()` the
peer addresses or an error. -/
structure Driver where
  GetInfo : Except Error Int
  IsConnectedTo : String → Except Error Bool
  AddNode : String → Option Error
  Addrs : Except Error (List String)

/-- Go `fmt.Sprintf("%d", v)` for an integer `v`. -/
def sprintfD (v : Int) : String :=
  if v < 0 then "-" ++ Nat.repr v.natAbs else Nat.repr v.natAbs

/-- The loop `for _, p := range peers` of `checkNode`: each peer address gets a
freshly allocated `Node{Address: p}`, appended to `conns` and offered to the
registry. -/
def addPeers : List String → List Ptr → Heap → Enumerator → List Ptr × Heap × Enumerator
  | [], conns, h, e => (conns, h, e)
  | p :: rest, conns, h, e =>
    let a := h.alloc (Node.ofAddress p)
    addPeers rest (conns ++ [a.1]) a.2 (e.AddToCensus a.2 a.1)

/-- The body of `checkNode` up to its `return`, without the deferred `n.free()`;
`now` is the value of `time.Now()` read on full success. -/
def checkNodeBody (drv : Driver) (now : Time) (h : Heap) (e : Enumerator) (n : Ptr) :
    Option Error × Heap × Enumerator :=
  match drv.GetInfo with
  | .error err => (some err, h.write n ((h.cell n).setOnline false), e)
  | .ok version =>
    let h1 := h.write n ((h.cell n).setVersion (sprintfD version))
    match drv.IsConnectedTo (h1.cell n).Address with
    | .error err => (some err, h1, e)
    | .ok connected =>
      match (if !connected then drv.AddNode (h1.cell n).Address else none) with
      | some err => (some err, h1, e)
      | none =>
        match drv.Addrs with
        | .error err => (some err, h1.write n ((h1.cell n).setOnline false), e)
        | .ok peers =>
          let r := addPeers peers [] h1 e
          let h2 := r.2.1.write n ((r.2.1.cell n).setPolled r.1 now)
          (none, h2, r.2.2.AddToCensus h2 n)

/-- Method `checkNode` of `worker.go`: the body, then the deferred `n.free()`.
Returns the error (`none` is `nil`), the heap and the registry afterwards. -/
def checkNode (drv : Driver) (now : Time) (h : Heap) (e : Enumerator) (n : Ptr) :
    Option Error × Heap × Enumerator :=
  let r := checkNodeBody drv now h e n
  (r.1, r.2.1.write n (r.2.1.cell n).free, r.2.2)

/-! ## Sample states -/

/-- A heap with two records for the address `10.0.0.1:18555` (at `0` and `1`,
differing in `Version`, `Online` and `LastChecked`) and one for
`10.0.0.2:18555` (at `2`) whose lease is taken. -/
def sampleHeap : Heap :=
  { cell := fun p =>
      if p = 0 then { Node.zero with Address := "10.0.0.1:18555", Version := "120000",
                                     Online := true, LastChecked := 100 }
      else if p = 1 then { Node.zero with Address := "10.0.0.1:18555" }
      else if p = 2 then { Node.zero with Address := "10.0.0.2:18555", busy := 1 }
      else Node.zero,
    next := 3 }

/-- A registry holding the record at `0` under its address. -/
def sampleEnum : Enumerator :=
  (New [0] 15 1).AddToCensus sampleHeap 0

/-- A registry holding the records at `2` and `0` under their addresses. -/
def sampleEnum2 : Enumerator :=
  ((New [0] 15 1).AddToCensus sampleHeap 0).AddToCensus sampleHeap 2

/-- A clock that reads `200` at the first examination and advances by one
nanosecond per examination. -/
def sampleClock : Nat → Time := fun k => 200 + k

/-- A driver whose every call succeeds: version `120000`, not yet connected,
peers `10.0.0.2:18555` and `10.0.0.3:18555`. -/
def sampleDriver : Driver :=
  { GetInfo := .ok 120000,
    IsConnectedTo := fun _ => .ok false,
    AddNode := fun _ => none,
    Addrs := .ok ["10.0.0.2:18555", "10.0.0.3:18555"] }


/-- A driver whose liveness call fails. -/
def sampleLivenessDown : Driver :=
  { GetInfo := .error "getinfo: connection refused",
    IsConnectedTo := fun _ => .ok false,
    AddNode := fun _ => none,
    Addrs := .ok [] }

/-- A driver whose liveness call succeeds and whose is-connected query fails. -/
def samplePeerInfoDown : Driver :=
  { GetInfo := .ok 120000,
    IsConnectedTo := fun _ => .error "getpeerinfo: timeout",
    AddNode := fun _ => none,
    Addrs := .ok [] }

/-- A driver that is not connected yet and whose connect request fails. -/
def sampleConnectDown : Driver :=
  { GetInfo := .ok 120000,
    IsConnectedTo := fun _ => .ok false,
    AddNode := fun _ => some "addnode: rejected",
    Addrs := .ok [] }

/-- A driver whose list-peers call fails after everything else succeeded. -/
def sampleAddrsDown : Driver :=
  { GetInfo := .ok 120000,
    IsConnectedTo := fun _ => .ok true,
    AddNode := fun _ => none,
    Addrs := .error "getaddrcache: timeout" }


/-- A driver whose every call succeeds and whose peer list names the polled
node's own address `10.0.0.1:18555` next to `10.0.0.2:18555`. -/
def sampleSelfPeer : Driver :=
  { GetInfo := .ok 120000,
    IsConnectedTo := fun _ => .ok true,
    AddNode := fun _ => none,
    Addrs := .ok ["10.0.0.2:18555", "10.0.0.1:18555"] }


/-- The registry invariant of the data model: every key is the `Address` of the
record it maps to (a node is registered under its address by `AddToCensus`, and
no code of the package assigns `Address` afterwards). -/
def Enumerator.keyedByAddress (h : Heap) (e : Enumerator) : Bool :=
  e.nodes.entries.all (fun kv => (h.cell kv.2).Address == kv.1)


/-! ## Coordination routine (`enumeration.go`, `worker.go`) -/

/-- The part of `Worker` the coordination routine touches: its number `num`
(its `quit` channel is identified by that number). -/
structure Worker where
  num : Nat
  deriving DecidableEq, Repr

/-- Function `NewWorker` of `worker.go`: `newSoterd` is what `driver.NewSoterd`
returns (`none` for a process, `some err` for an error). -/
def NewWorker (newSoterd : Option Error) (num : Nat) : Except Error Worker :=
  match newSoterd with
  | some err => .error err
  | none => .ok { num := num }

/-- What the launch loop of `enumeration` has done so far: the slice `workers`,
the variable `err`, the number of `NewWorker` calls, the number of
`e.wg.Add(1)` calls and the workers started by `go w.run()`, by number. -/
structure Launch where
  workers : List Worker
  err : Option Error
  attempts : Nat
  wgAdds : Nat
  spawned : List Nat
  deriving DecidableEq, Repr

/-- The loop `for i := 0; i < e.maxWorkers; i++` of `enumeration`, from `i` on;
`newSoterd i` is the outcome of the driver construction for worker `i`.  The
first argument bounds the number of iterations. -/
def launchLoop (maxWorkers : Int) (newSoterd : Nat → Option Error) :
    Nat → Nat → Launch → Launch
  | 0, _, s => s
  | fuel + 1, i, s =>
    if (i : Int) < maxWorkers then
      match NewWorker (newSoterd i) i with
      | .error err => { s with err := some err, attempts := s.attempts + 1 }
      | .ok w =>
        launchLoop maxWorkers newSoterd fuel (i + 1)
          { workers := s.workers ++ [w], err := none, attempts := s.attempts + 1,
            wgAdds := s.wgAdds + 1, spawned := s.spawned ++ [w.num] }
    else s

/-- What the `select` of `enumeration` receives: a worker notification or the
closing of `e.quit`. -/
inductive Event where
  | notification (m : String)
  | quit
  deriving DecidableEq, Repr

/-- The loop `for { select { ... } }` of `enumeration` over the events still to
come: the notifications logged, the `quit` channels closed (by worker number)
and whether the routine has returned (it has not when the events run out). -/
def waitLoop (workers : List Worker) : List Event → List String →
    List String × List Nat × Bool
  | [], relayed => (relayed, [], false)
  | Event.notification m :: rest, relayed => waitLoop workers rest (relayed ++ [m])
  | Event.quit :: _, relayed => (relayed, workers.map Worker.num, true)

/-- The result of one run of `enumeration`. -/
structure Coordination where
  launch : Launch
  relayed : List String
  closed : List Nat
  returned : Bool
  deriving DecidableEq, Repr

/-- Method `enumeration` of `enumeration.go`, run against the construction
outcomes `newSoterd` and the events `events`. -/
def enumeration (maxWorkers : Int) (newSoterd : Nat → Option Error) (events : List Event) :
    Coordination :=
  let l := launchLoop maxWorkers newSoterd maxWorkers.toNat 0
    { workers := [], err := none, attempts := 0, wgAdds := 0, spawned := [] }
  if l.err.isSome then
    { launch := l, relayed := [], closed := l.workers.map Worker.num, returned := true }
  else
    let r := waitLoop l.workers events []
    { launch := l, relayed := r.1, closed := r.2.1, returned := r.2.2 }

/-- Construction outcomes in which the worker with index `2` is the first to fail. -/
def sampleThirdFails : Nat → Option Error :=
  fun i => if i = 2 then some "rpctest: no free port" else none


/-! ## Start and Stop (`enumeration.go`) -/

/-- The value an `int32` holds after the exact result `x` is stored in it
(two's complement wrap-around). -/
def wrapInt32 (x : Int) : Int := (x + 2147483648) % 4294967296 - 2147483648

/-- Go `atomic.AddInt32(&v, delta)`: the new value, which is also returned. -/
def addInt32 (v delta : Int) : Int := wrapInt32 (v + delta)

/-- An enumerator together with what `Start` and `Stop` act on besides its data
fields: the counter of `e.wg`, the number of `go e.enumeration()` statements
executed so far and the number of `close(e.quit)` statements executed so far. -/
structure Lifecycle where
  e : Enumerator
  wg : Int
  launched : Nat
  quitClosed : Nat

/-- The enumerator as `New` returns it: nothing launched, nothing closed, the
wait group at zero. -/
def Lifecycle.init (e : Enumerator) : Lifecycle :=
  { e := e, wg := 0, launched := 0, quitClosed := 0 }

/-- The effect of `atomic.AddInt32(&e.started, 1)` alone. -/
def Lifecycle.addStarted (s : Lifecycle) : Lifecycle :=
  { s with e := { seeds := s.e.seeds, nodes := s.e.nodes, interval := s.e.interval,
                  maxWorkers := s.e.maxWorkers, started := addInt32 s.e.started 1,
                  shutdown := s.e.shutdown } }

/-- The effect of `atomic.AddInt32(&e.shutdown, 1)` alone. -/
def Lifecycle.addShutdown (s : Lifecycle) : Lifecycle :=
  { s with e := { seeds := s.e.seeds, nodes := s.e.nodes, interval := s.e.interval,
                  maxWorkers := s.e.maxWorkers, started := s.e.started,
                  shutdown := addInt32 s.e.shutdown 1 } }

/-- Method `Start` of `enumeration.go`. -/
def Lifecycle.Start (s : Lifecycle) : Lifecycle :=
  let s1 := s.addStarted
  if s1.e.started ≠ 1 then s1
  else { s1 with wg := s1.wg + 1, launched := s1.launched + 1 }

/-- Method `Stop` of `enumeration.go`: the state afterwards and whether
`e.wg.Wait()` was reached with a counter other than zero, that is whether the
caller blocks. -/
def Lifecycle.Stop (s : Lifecycle) : Lifecycle × Bool :=
  let s1 := s.addShutdown
  if s1.e.shutdown ≠ 1 then (s1, false)
  else ({ s1 with quitClosed := s1.quitClosed + 1 }, decide (s1.wg ≠ 0))

/-- What can happen to an enumerator between two observations: a call of
`Start`, a call of `Stop`, or the goroutines launched so far moving the wait
group by `delta` (`wg.Add`, `wg.Done`). -/
inductive Call where
  | start
  | stop
  | background (delta : Int)
  deriving DecidableEq, Repr

/-- One step: goroutines exist only once something has been launched. -/
def Lifecycle.step (s : Lifecycle) : Call → Lifecycle
  | Call.start => s.Start
  | Call.stop => s.Stop.1
  | Call.background delta => if s.launched = 0 then s else { s with wg := s.wg + delta }

/-- A sequence of steps, first call first. -/
def Lifecycle.run (s : Lifecycle) (calls : List Call) : Lifecycle :=
  calls.foldl Lifecycle.step s


/-! ## Registry histories -/

/-- A call that changes the registry from outside a poll. -/
inductive RegistryOp where
  | add (n : Ptr)
  | remove (n : Ptr)
  deriving DecidableEq, Repr

/-- One call of `AddToCensus` or `RemoveFromCensus`. -/
def Enumerator.apply (h : Heap) (e : Enumerator) : RegistryOp → Enumerator
  | RegistryOp.add n => e.AddToCensus h n
  | RegistryOp.remove n => e.RemoveFromCensus h n

/-- A sequence of such calls, first call first.  The heap is the same
throughout: the calls read nothing of a node but its `Address`, which is not
assigned after the node is created. -/
def Enumerator.applyAll (h : Heap) (e : Enumerator) (ops : List RegistryOp) : Enumerator :=
  ops.foldl (Enumerator.apply h) e


/-! ## Driver: is the vantage point connected? (`driver/soterd.go`) -/

/-- The fields of `soterjson.GetPeerInfoResult` that the repository reads. -/
structure PeerInfo where
  ID : Int
  Addr : String
  Inbound : Bool
  deriving DecidableEq, Repr

/-- Go `strings.Contains(s, ":")`. -/
def containsColon (s : String) : Bool := s.data.contains (Char.ofNat 58)

/-- The first loop of `IsConnectedTo`: is some peer's `Addr` exactly `target`? -/
def exactMatch (target : String) : List PeerInfo → Bool
  | [] => false
  | p :: rest => if p.Addr = target then true else exactMatch target rest

/-- The host part used by the second loop of `IsConnectedTo`: the address itself
when it has no colon, otherwise the host that `net.SplitHostPort` returns, or
its error.  `splitHostPort` stands for the standard library function. -/
def hostOf (splitHostPort : String → Except Error (String × String)) (addr : String) :
    Except Error String :=
  if containsColon addr then
    match splitHostPort addr with
    | .error err => .error err
    | .ok hp => .ok hp.1
  else .ok addr

/-- The second loop of `IsConnectedTo`, over the peers still to visit: the pair
returned when the loop returns, `none` when it runs to its end. -/
def inboundMatch (splitHostPort : String → Except Error (String × String)) (target : String) :
    List PeerInfo → Option (Bool × Option Error)
  | [] => none
  | p :: rest =>
    if !p.Inbound then inboundMatch splitHostPort target rest
    else
      match hostOf splitHostPort p.Addr with
      | .error err => some (false, some err)
      | .ok pHost =>
        match hostOf splitHostPort target with
        | .error err => some (false, some err)
        | .ok toHost =>
          if pHost = toHost then some (true, none)
          else inboundMatch splitHostPort target rest

/-- Method `IsConnectedTo` of `driver/soterd.go`; `getPeerInfo` is what
`s.process.Node.GetPeerInfo()` returns and `target` is the parameter `to`.  The
result is the pair `(bool, error)` with `none` for a `nil` error. -/
def Soterd.IsConnectedTo (getPeerInfo : Except Error (List PeerInfo))
    (splitHostPort : String → Except Error (String × String)) (target : String) :
    Bool × Option Error :=
  match getPeerInfo with
  | .error err => (false, some err)
  | .ok peers =>
    if exactMatch target peers then (true, none)
    else
      match inboundMatch splitHostPort target peers with
      | some r => r
      | none => (false, none)

/-- A `net.SplitHostPort` stand-in for the samples: it cuts at the first colon. -/
def sampleSplit (s : String) : Except Error (String × String) :=
  .ok ((s.splitOn ":").headD "", ((s.splitOn ":").drop 1).headD "")


/-! ## Peer maps of the dashboard (`models.go`) -/

/-- A `*soterjson.GetPeerInfoResult`. -/
abbrev PeerPtr := Nat

/-- The Go type `map[int32]*soterjson.GetPeerInfoResult`. -/
abbrev PeerMap := AList (fun _ : Int => PeerPtr)

/-- The address of the loop variable `p` of `sortPeers`.  In the Go versions this
repository was written for (before 1.22) the variable of a `for ... range` loop
is one variable for the whole loop, so `&p` is this address in every iteration. -/
def loopVarAddr : PeerPtr := 0

/-- What `sortPeers` leaves behind: the two maps it returns and the value held
by the loop variable `p`, which is what every stored `&p` points to (`none`
when the loop body never ran). -/
structure SortedPeers where
  inbound : PeerMap
  outbound : PeerMap
  loopVar : Option PeerInfo

/-- Dereference a pointer stored in one of the maps. -/
def SortedPeers.deref (r : SortedPeers) (q : PeerPtr) : Option PeerInfo :=
  if q = loopVarAddr then r.loopVar else none

/-- The loop `for _, p := range peers` of `sortPeers` over the peers still to
visit: each iteration assigns the element to `p`, picks the map by `p.Inbound`
and stores `&p` under `p.ID` unless the key exists. -/
def sortPeersLoop : List PeerInfo → SortedPeers → SortedPeers
  | [], r => r
  | p :: rest, r =>
    if p.Inbound then
      if (r.inbound.lookup p.ID).isSome then
        sortPeersLoop rest { r with loopVar := some p }
      else
        sortPeersLoop rest { r with inbound := r.inbound.insert p.ID loopVarAddr,
                                    loopVar := some p }
    else
      if (r.outbound.lookup p.ID).isSome then
        sortPeersLoop rest { r with loopVar := some p }
      else
        sortPeersLoop rest { r with outbound := r.outbound.insert p.ID loopVarAddr,
                                    loopVar := some p }

/-- Function `sortPeers` of `models.go`. -/
def sortPeers (peers : List PeerInfo) : SortedPeers :=
  sortPeersLoop peers { inbound := ∅, outbound := ∅, loopVar := none }

/-- An inbound peer with ID `1` followed by an outbound peer with ID `2`. -/
def samplePeers : List PeerInfo :=
  [{ ID := 1, Addr := "10.0.0.1:40112", Inbound := true },
   { ID := 2, Addr := "10.0.0.2:18555", Inbound := false }]


/-! ## Seed bootstrap (`worker.go`) -/

/-- A worker in `checkSeeds`: the heap, the enumerator, the number `t` of steps
of the environment used up so far (step `k` reads the clock as `clock k` and is
answered by the driver as `drv k`), the number of `checkNode` calls made and
the number of them that returned `nil`. -/
structure SeedRun where
  h : Heap
  e : Enumerator
  t : Nat
  polled : Nat
  succeeded : Nat

/-- The loop `for _, n := range w.e.seeds` of `checkSeeds` over the seeds still
to visit: reserve the seed and, on success, run `checkNode` on it. -/
def seedPass (drv : Nat → Driver) (clock : Nat → Time) : List Ptr → SeedRun → SeedRun
  | [], s => s
  | n :: rest, s =>
    let r := (s.h.cell n).reserve
    let h1 := s.h.write n r.2
    if r.1 then
      let c := checkNode (drv s.t) (clock s.t) h1 s.e n
      seedPass drv clock rest
        { h := c.2.1, e := c.2.2, t := s.t + 1, polled := s.polled + 1,
          succeeded := s.succeeded + (if c.1.isNone then 1 else 0) }
    else
      seedPass drv clock rest { s with h := h1 }

/-- Method `checkSeeds` of `worker.go`, for at most `fuel` evaluations of the
loop condition (`none` when they do not suffice).  `interval` is the value of
`w.e.Interval`, a field that `Enumerator` does not declare; each evaluation of
`allFresh` uses one step of the environment per seed. -/
def checkSeeds (drv : Nat → Driver) (clock : Nat → Time) (interval : Duration) :
    Nat → SeedRun → Option SeedRun
  | 0, _ => none
  | fuel + 1, s =>
    if allFresh s.h interval clock s.e.seeds s.t then
      some { s with t := s.t + s.e.seeds.length }
    else
      checkSeeds drv clock interval fuel
        (seedPass drv clock s.e.seeds { s with t := s.t + s.e.seeds.length })

/-- A worker about to enter `checkSeeds` on the enumerator `New [0] 15 1`. -/
def sampleSeedRun : SeedRun :=
  { h := sampleHeap, e := New [0] 15 1, t := 0, polled := 0, succeeded := 0 }


/-! ## Workers and leases -/

/-- The pool of workers around one registry: the heap, the enumerator and the
pairs `(w, n)` of a worker `w` and a node `n` that `w` has reserved and not yet
finished checking. -/
structure Pool where
  h : Heap
  e : Enumerator
  held : List (Nat × Ptr)

/-- What a worker can do to a node's lease: call `pickNode` (steady-state loop
of `run`), call `reserve` on a seed (`checkSeeds`), or run `checkNode` on a node
it holds, which ends with the deferred `free`. -/
inductive Action where
  | pick (w : Nat) (clock : Nat → Time)
  | reserveSeed (w : Nat) (n : Ptr)
  | check (w : Nat) (n : Ptr) (drv : Driver) (now : Time)

/-- One action.  A worker holds the node `pickNode` hands it or the seed its
`reserve` succeeded on, and runs `checkNode` only on a node it holds. -/
def Pool.step (s : Pool) : Action → Pool
  | Action.pick w clock =>
    match (s.e.pickNode s.h clock).1.1, (s.e.pickNode s.h clock).1.2 with
    | some n, true => { s with h := (s.e.pickNode s.h clock).2, held := (w, n) :: s.held }
    | _, _ => { s with h := (s.e.pickNode s.h clock).2 }
  | Action.reserveSeed w n =>
    if n ∈ s.e.seeds then
      if (s.h.cell n).reserve.1 then
        { s with h := s.h.write n (s.h.cell n).reserve.2, held := (w, n) :: s.held }
      else { s with h := s.h.write n (s.h.cell n).reserve.2 }
    else s
  | Action.check w n drv now =>
    if (w, n) ∈ s.held then
      { h := (checkNode drv now s.h s.e n).2.1, e := (checkNode drv now s.h s.e n).2.2,
        held := s.held.erase (w, n) }
    else s

/-- A sequence of actions, first action first. -/
def Pool.run (s : Pool) (actions : List Action) : Pool :=
  actions.foldl Pool.step s

/-- A heap like `sampleHeap` in which every lease is free. -/
def sampleFreeHeap : Heap :=
  { cell := fun p =>
      if p = 0 then { Node.zero with Address := "10.0.0.1:18555", LastChecked := 100 }
      else if p = 1 then { Node.zero with Address := "10.0.0.2:18555", LastChecked := 190 }
      else Node.zero,
    next := 2 }

/-- Three workers about to start on a registry that holds the records at `0`
and `1`; nobody holds a node. -/
def samplePool : Pool :=
  { h := sampleFreeHeap,
    e := ((New [0] 15 3).AddToCensus sampleFreeHeap 0).AddToCensus sampleFreeHeap 1,
    held := [] }


/-- The lease invariant of a pool: a node's lease is taken exactly when some
worker holds the node, no node is held twice, and every pointer that is held,
registered or a seed has been allocated. -/
def Pool.Inv (s : Pool) : Prop :=
  (∀ p : Nat, (∃ w : Nat, (w, p) ∈ s.held) ↔ (s.h.cell p).busy ≠ Census.free) ∧
  (s.held.map Prod.snd).Nodup ∧
  (∀ (w p : Nat), (w, p) ∈ s.held → p < s.h.next) ∧
  (∀ kv ∈ s.e.nodes.entries, kv.2 < s.h.next) ∧
  (∀ n ∈ s.e.seeds, n < s.h.next)


/-- Two workers reserve the seed at `0` one after the other, then the first one
polls it against a driver whose liveness call fails. -/
def sampleActions : List Action :=
  [Action.reserveSeed 7 0, Action.reserveSeed 8 0, Action.check 7 0 sampleLivenessDown 500]

/-- A driver whose every call succeeds: version `120000`, already connected,
no peers known. -/
def sampleQuietDriver : Driver :=
  { GetInfo := .ok 120000,
    IsConnectedTo := fun _ => .ok true,
    AddNode := fun _ => none,
    Addrs := .ok [] }

/-- Driver answers by step for a run over two seeds: the poll at step `3` fails
at the liveness call, every other poll succeeds. -/
def sampleStepDriver : Nat → Driver :=
  fun k => if k = 3 then sampleLivenessDown else sampleQuietDriver

/-- A clock that reads `300 + k` at step `k`. -/
def sampleLateClock : Nat → Time := fun k => 300 + k

/-- A worker about to run `checkSeeds` over the two seeds `0` and `1` of
`sampleFreeHeap`, both stale at `300`. -/
def sampleTwoSeedRun : SeedRun :=
  { h := sampleFreeHeap, e := New [0, 1] 15 1, t := 0, polled := 0, succeeded := 0 }

/-! ## Registry contracts -/

/-- C1: inserting a node whose Address is already a key leaves the registry
unchanged: the same number of entries, and `Get` on that address still returns
the original record (whatever the inserted node is). -/
theorem addToCensus_existing (h : Heap) (e : Enumerator) (m orig : Ptr)
    (hkey : e.nodes.lookup (h.cell m).Address = some orig) :
    e.AddToCensus h m = e ∧
    (e.AddToCensus h m).size = e.size ∧
    (e.AddToCensus h m).Get (h.cell m).Address = (some orig, true) := by
  have hsame : e.AddToCensus h m = e := by
    simp [Enumerator.AddToCensus, hkey]
  refine ⟨hsame, by rw [hsame], ?_⟩
  rw [hsame]
  simp [Enumerator.Get, hkey]

theorem addToCensus_existing_witness :
    sampleEnum.nodes.lookup (sampleHeap.cell 1).Address = some 0 ∧
    (sampleEnum.AddToCensus sampleHeap 1 = sampleEnum ∧
     (sampleEnum.AddToCensus sampleHeap 1).size = sampleEnum.size ∧
     (sampleEnum.AddToCensus sampleHeap 1).Get (sampleHeap.cell 1).Address = (some 0, true)) :=
  ⟨by decide, addToCensus_existing sampleHeap sampleEnum 1 0 (by decide)⟩

/-- C2: inserting a node whose Address is not a key adds exactly one entry,
makes `Get` on that address return the node with `exists = true`, and leaves
`Get` on every other address as it was. -/
theorem addToCensus_fresh (h : Heap) (e : Enumerator) (n : Ptr)
    (hkey : e.nodes.lookup (h.cell n).Address = none) :
    (e.AddToCensus h n).size = e.size + 1 ∧
    (e.AddToCensus h n).Get (h.cell n).Address = (some n, true) ∧
    ∀ a : String, a ≠ (h.cell n).Address → (e.AddToCensus h n).Get a = e.Get a := by
  have hnot : (h.cell n).Address ∉ e.nodes := AList.lookup_eq_none.mp hkey
  have hins : (e.AddToCensus h n).nodes = e.nodes.insert (h.cell n).Address n := by
    simp [Enumerator.AddToCensus, hkey]
  refine ⟨?_, ?_, ?_⟩
  · simp only [Enumerator.size, hins, AList.insert_entries_of_neg hnot, List.length_cons]
  · simp [Enumerator.Get, hins]
  · intro a ha
    simp [Enumerator.Get, hins, AList.lookup_insert_ne ha]

theorem addToCensus_fresh_witness :
    sampleEnum.nodes.lookup (sampleHeap.cell 2).Address = none ∧
    ((sampleEnum.AddToCensus sampleHeap 2).size = sampleEnum.size + 1 ∧
     (sampleEnum.AddToCensus sampleHeap 2).Get (sampleHeap.cell 2).Address = (some 2, true) ∧
     ∀ a : String, a ≠ (sampleHeap.cell 2).Address →
       (sampleEnum.AddToCensus sampleHeap 2).Get a = sampleEnum.Get a) :=
  ⟨by decide, addToCensus_fresh sampleHeap sampleEnum 2 (by decide)⟩

/-- C3: after `RemoveFromCensus(n)` the node is not in the census and `Get` on
its address reports not found, `Get` on every other address is unchanged, and
when the address was not a key the registry is exactly what it was. -/
theorem removeFromCensus_spec (h : Heap) (e : Enumerator) (n : Ptr) :
    (e.RemoveFromCensus h n).IsInCensus h n = false ∧
    (e.RemoveFromCensus h n).Get (h.cell n).Address = (none, false) ∧
    (∀ a : String, a ≠ (h.cell n).Address → (e.RemoveFromCensus h n).Get a = e.Get a) ∧
    (e.nodes.lookup (h.cell n).Address = none → e.RemoveFromCensus h n = e) := by
  refine ⟨?_, ?_, ?_, ?_⟩
  · simp [Enumerator.IsInCensus, Enumerator.RemoveFromCensus]
  · simp [Enumerator.Get, Enumerator.RemoveFromCensus]
  · intro a ha
    simp [Enumerator.Get, Enumerator.RemoveFromCensus, AList.lookup_erase_ne ha]
  · intro hkey
    have hnot : (h.cell n).Address ∉ e.nodes := AList.lookup_eq_none.mp hkey
    have hers : e.nodes.erase (h.cell n).Address = e.nodes := by
      apply AList.ext
      simp only [AList.erase]
      exact List.kerase_of_not_mem_keys hnot
    simp [Enumerator.RemoveFromCensus, hers]

theorem removeFromCensus_spec_witness :
    (sampleEnum2.RemoveFromCensus sampleHeap 2).IsInCensus sampleHeap 2 = false ∧
    (sampleEnum2.RemoveFromCensus sampleHeap 2).Get (sampleHeap.cell 2).Address = (none, false) ∧
    (∀ a : String, a ≠ (sampleHeap.cell 2).Address →
      (sampleEnum2.RemoveFromCensus sampleHeap 2).Get a = sampleEnum2.Get a) ∧
    (sampleEnum2.nodes.lookup (sampleHeap.cell 2).Address = none →
      sampleEnum2.RemoveFromCensus sampleHeap 2 = sampleEnum2) :=
  removeFromCensus_spec sampleHeap sampleEnum2 2

/-! ## Scheduler contracts -/

/-- A failed `reserve` writes nothing: storing the node it leaves gives the heap back. -/
theorem write_reserve_of_fail (h : Heap) (p : Ptr) (hfail : (h.cell p).reserve.1 = false) :
    h.write p (h.cell p).reserve.2 = h := by
  have hb : (h.cell p).busy ≠ Census.free := by
    intro hb
    simp [Node.reserve, compareAndSwap, hb] at hfail
  have hn : (h.cell p).reserve.2 = h.cell p := by
    simp [Node.reserve, compareAndSwap, hb]
  rw [hn]
  simp [Heap.write]

/-- The flag of `reserve` is true exactly on a free lease. -/
theorem reserve_flag (n : Node) : n.reserve.1 = true ↔ n.busy = Census.free := by
  by_cases hb : n.busy = Census.free <;> simp [Node.reserve, compareAndSwap, hb]

/-- When no entry is both stale at its examination and free, the loop finds no
work and gives the heap back unchanged. -/
theorem pickNodeLoop_none (interval : Duration) (clock : Nat → Time) :
    ∀ (l : List (Sigma fun _ : String => Ptr)) (k : Nat) (h : Heap),
      (∀ (i : Nat) (kv : Sigma fun _ : String => Ptr), l[i]? = some kv →
        ¬ ((h.cell kv.2).isStale interval (clock (k + i)) = true ∧
           (h.cell kv.2).busy = Census.free)) →
      pickNodeLoop interval clock l k h = ((none, false), h) := by
  intro l
  induction l with
  | nil => intro k h _; rfl
  | cons kv rest ih =>
    intro k h hall
    have hrest : ∀ (i : Nat) (kv1 : Sigma fun _ : String => Ptr), rest[i]? = some kv1 →
        ¬ ((h.cell kv1.2).isStale interval (clock (k + 1 + i)) = true ∧
           (h.cell kv1.2).busy = Census.free) := by
      intro i kv1 hi
      have := hall (i + 1) kv1 (by simpa using hi)
      rwa [show k + (i + 1) = k + 1 + i by omega] at this
    have hhead := hall 0 kv (by simp)
    rw [Nat.add_zero] at hhead
    unfold pickNodeLoop
    by_cases hst : (h.cell kv.2).isStale interval (clock k) = true
    · have hb : ¬ (h.cell kv.2).busy = Census.free := fun hb => hhead ⟨hst, hb⟩
      have hfail : (h.cell kv.2).reserve.1 = false := by
        cases hr : (h.cell kv.2).reserve.1
        · rfl
        · exact absurd ((reserve_flag _).mp hr) hb
      simp only [hst, Bool.not_true, hfail, write_reserve_of_fail h kv.2 hfail]
      simpa using ih (k + 1) h hrest
    · simp only [Bool.not_eq_true] at hst
      simp only [hst, Bool.not_false, if_true]
      exact ih (k + 1) h hrest

/-- When some entry is both stale at its examination and free, the loop returns
with the flag set. -/
theorem pickNodeLoop_some (interval : Duration) (clock : Nat → Time) :
    ∀ (l : List (Sigma fun _ : String => Ptr)) (k : Nat) (h : Heap),
      (∃ (i : Nat) (kv : Sigma fun _ : String => Ptr), l[i]? = some kv ∧
        (h.cell kv.2).isStale interval (clock (k + i)) = true ∧
        (h.cell kv.2).busy = Census.free) →
      (pickNodeLoop interval clock l k h).1.2 = true := by
  intro l
  induction l with
  | nil => intro k h hex; obtain ⟨i, kv, hi, _⟩ := hex; simp at hi
  | cons kv rest ih =>
    intro k h hex
    unfold pickNodeLoop
    by_cases hst : (h.cell kv.2).isStale interval (clock k) = true
    · by_cases hb : (h.cell kv.2).busy = Census.free
      · have hok : (h.cell kv.2).reserve.1 = true := (reserve_flag _).mpr hb
        simp [hst, hok]
      · have hfail : (h.cell kv.2).reserve.1 = false := by
          cases hr : (h.cell kv.2).reserve.1
          · rfl
          · exact absurd ((reserve_flag _).mp hr) hb
        simp only [hst, Bool.not_true, hfail, write_reserve_of_fail h kv.2 hfail]
        have hrest : ∃ (i : Nat) (kv1 : Sigma fun _ : String => Ptr), rest[i]? = some kv1 ∧
            (h.cell kv1.2).isStale interval (clock (k + 1 + i)) = true ∧
            (h.cell kv1.2).busy = Census.free := by
          obtain ⟨i, kv1, hi, hs, hf⟩ := hex
          cases i with
          | zero =>
            simp at hi
            subst hi
            exact absurd hf hb
          | succ j =>
            refine ⟨j, kv1, by simpa using hi, ?_, hf⟩
            rwa [show k + (j + 1) = k + 1 + j by omega] at hs
        simpa using ih (k + 1) h hrest
    · have hrest : ∃ (i : Nat) (kv1 : Sigma fun _ : String => Ptr), rest[i]? = some kv1 ∧
          (h.cell kv1.2).isStale interval (clock (k + 1 + i)) = true ∧
          (h.cell kv1.2).busy = Census.free := by
        obtain ⟨i, kv1, hi, hs, hf⟩ := hex
        cases i with
        | zero =>
          simp at hi
          subst hi
          rw [Nat.add_zero] at hs
          exact absurd hs hst
        | succ j =>
          refine ⟨j, kv1, by simpa using hi, ?_, hf⟩
          rwa [show k + (j + 1) = k + 1 + j by omega] at hs
      simp only [Bool.not_eq_true] at hst
      simp only [hst, Bool.not_false, if_true]
      exact ih (k + 1) h hrest

/-- Whatever the loop returns with the flag set is an entry that was stale when
examined and whose lease this call moved from free to busy; no other record and
no other field is touched. -/
theorem pickNodeLoop_sound (interval : Duration) (clock : Nat → Time) :
    ∀ (l : List (Sigma fun _ : String => Ptr)) (k : Nat) (h : Heap) (r : Option Ptr),
      (pickNodeLoop interval clock l k h).1 = (r, true) →
      ∃ (n : Ptr) (i : Nat) (a : String), r = some n ∧ l[i]? = some ⟨a, n⟩ ∧
        (h.cell n).isStale interval (clock (k + i)) = true ∧
        (h.cell n).busy = Census.free ∧
        (h.cell n).reserve.1 = true ∧
        (pickNodeLoop interval clock l k h).2 = h.write n (h.cell n).reserve.2 := by
  intro l
  induction l with
  | nil => intro k h r hret; simp [pickNodeLoop] at hret
  | cons kv rest ih =>
    intro k h r hret
    unfold pickNodeLoop at hret ⊢
    by_cases hst : (h.cell kv.2).isStale interval (clock k) = true
    · by_cases hb : (h.cell kv.2).busy = Census.free
      · have hok : (h.cell kv.2).reserve.1 = true := (reserve_flag _).mpr hb
        simp only [hst, Bool.not_true, hok, if_true] at hret ⊢
        refine ⟨kv.2, 0, kv.1, ?_, by simp, by simpa using hst, hb, hok, ?_⟩
        · have := congrArg Prod.fst hret
          simpa using this.symm
        · simp
      · have hfail : (h.cell kv.2).reserve.1 = false := by
          cases hr : (h.cell kv.2).reserve.1
          · rfl
          · exact absurd ((reserve_flag _).mp hr) hb
        simp only [hst, Bool.not_true, hfail, write_reserve_of_fail h kv.2 hfail] at hret ⊢
        obtain ⟨n, i, a, hr, hi, hs, hf, hok, hh⟩ := ih (k + 1) h r (by simpa using hret)
        refine ⟨n, i + 1, a, hr, by simpa using hi, ?_, hf, hok, by simpa using hh⟩
        rwa [show k + (i + 1) = k + 1 + i by omega]
    · simp only [Bool.not_eq_true] at hst
      simp only [hst, Bool.not_false, if_true] at hret ⊢
      obtain ⟨n, i, a, hr, hi, hs, hf, hok, hh⟩ := ih (k + 1) h r hret
      refine ⟨n, i + 1, a, hr, by simpa using hi, ?_, hf, hok, hh⟩
      rwa [show k + (i + 1) = k + 1 + i by omega]

/-- C4: if `pickNode` returns `(n, true)` then `n` is a record of the registry,
it was stale with respect to the interval when it was examined
(`LastChecked + interval` strictly before the clock read then), its lease was
free before the call, its `reserve()` succeeded, and its lease is busy after the call. -/
theorem pickNode_sound (e : Enumerator) (h : Heap) (clock : Nat → Time) (r : Option Ptr)
    (hret : (e.pickNode h clock).1 = (r, true)) :
    ∃ (n : Ptr) (i : Nat) (a : String), r = some n ∧
      e.nodes.entries[i]? = some ⟨a, n⟩ ∧ e.nodes.lookup a = some n ∧
      (h.cell n).isStale e.interval (clock i) = true ∧
      (h.cell n).LastChecked + e.interval < clock i ∧
      (h.cell n).isBusy = false ∧
      (h.cell n).reserve.1 = true ∧
      ((e.pickNode h clock).2.cell n).isBusy = true := by
  obtain ⟨n, i, a, hr, hi, hs, hf, hok, hh⟩ :=
    pickNodeLoop_sound e.interval clock e.nodes.entries 0 h r hret
  rw [Nat.zero_add] at hs
  refine ⟨n, i, a, hr, hi, ?_, hs, ?_, ?_, hok, ?_⟩
  · have hmem : (⟨a, n⟩ : Sigma fun _ : String => Ptr) ∈ e.nodes.entries :=
      List.getElem?_mem hi
    exact AList.mem_lookup_iff.mpr hmem
  · simpa [Node.isStale] using hs
  · simp [Node.isBusy, hf]
  · have hh1 : (e.pickNode h clock).2 = h.write n (h.cell n).reserve.2 := hh
    rw [hh1]
    simp [Heap.write, Node.reserve, compareAndSwap, hf, Node.isBusy, Census.free, Census.busy]

theorem pickNode_sound_witness :
    (sampleEnum2.pickNode sampleHeap sampleClock).1 = (some 0, true) ∧
    ∃ (n : Ptr) (i : Nat) (a : String), some 0 = some n ∧
      sampleEnum2.nodes.entries[i]? = some ⟨a, n⟩ ∧ sampleEnum2.nodes.lookup a = some n ∧
      (sampleHeap.cell n).isStale sampleEnum2.interval (sampleClock i) = true ∧
      (sampleHeap.cell n).LastChecked + sampleEnum2.interval < sampleClock i ∧
      (sampleHeap.cell n).isBusy = false ∧
      (sampleHeap.cell n).reserve.1 = true ∧
      ((sampleEnum2.pickNode sampleHeap sampleClock).2.cell n).isBusy = true :=
  ⟨by decide, pickNode_sound sampleEnum2 sampleHeap sampleClock (some 0) (by decide)⟩

/-- C5: `pickNode` returns `(nil, false)` if and only if no entry of the registry
is both stale with respect to the interval (at the clock read when it is
examined) and free; and when it returns no work the heap, hence every lease, is
what it was. -/
theorem pickNode_none_iff (e : Enumerator) (h : Heap) (clock : Nat → Time) :
    ((e.pickNode h clock).1 = (none, false) ↔
      ∀ (i : Nat) (kv : Sigma fun _ : String => Ptr), e.nodes.entries[i]? = some kv →
        ¬ ((h.cell kv.2).isStale e.interval (clock i) = true ∧
           (h.cell kv.2).isBusy = false)) ∧
    ((e.pickNode h clock).1 = (none, false) → (e.pickNode h clock).2 = h) := by
  have hbusy : ∀ n : Node, n.isBusy = false ↔ n.busy = Census.free := by
    intro n
    by_cases hb : n.busy = Census.free <;> simp [Node.isBusy, hb]
  have hfwd : (e.pickNode h clock).1 = (none, false) →
      ∀ (i : Nat) (kv : Sigma fun _ : String => Ptr), e.nodes.entries[i]? = some kv →
        ¬ ((h.cell kv.2).isStale e.interval (clock i) = true ∧
           (h.cell kv.2).isBusy = false) := by
    intro hnone i kv hi hel
    have hflag := pickNodeLoop_some e.interval clock e.nodes.entries 0 h
      ⟨i, kv, hi, by simpa using hel.1, (hbusy _).mp hel.2⟩
    have hnone1 : (pickNodeLoop e.interval clock e.nodes.entries 0 h).1 = (none, false) := hnone
    rw [hnone1] at hflag
    exact Bool.noConfusion hflag
  have hbwd : (∀ (i : Nat) (kv : Sigma fun _ : String => Ptr), e.nodes.entries[i]? = some kv →
        ¬ ((h.cell kv.2).isStale e.interval (clock i) = true ∧
           (h.cell kv.2).isBusy = false)) →
      e.pickNode h clock = ((none, false), h) := by
    intro hall
    apply pickNodeLoop_none
    intro i kv hi hel
    exact hall i kv hi ⟨by simpa using hel.1, (hbusy _).mpr hel.2⟩
  refine ⟨⟨hfwd, fun hall => by rw [hbwd hall]⟩, fun hnone => ?_⟩
  rw [hbwd (hfwd hnone)]

/-! ## Lease contracts -/

/-- C6: `reserve()` returns true if and only if the lease was free at the call;
afterwards the lease is busy in both cases, and no other field has changed. -/
theorem reserve_spec (n : Node) :
    (n.reserve.1 = true ↔ n.busy = Census.free) ∧
    (n.reserve.1 = true ↔ n.isBusy = false) ∧
    n.reserve.2.isBusy = true ∧
    n.reserve.2.Address = n.Address ∧
    n.reserve.2.Version = n.Version ∧
    n.reserve.2.Hops = n.Hops ∧
    n.reserve.2.Online = n.Online ∧
    n.reserve.2.LastChecked = n.LastChecked ∧
    n.reserve.2.connections = n.connections := by
  by_cases hb : n.busy = Census.free
  · simp [Node.reserve, compareAndSwap, Node.isBusy, hb, Census.free, Census.busy]
  · simp [Node.reserve, compareAndSwap, Node.isBusy, hb]

/-- Counting the calls of a run that returned `flag`, one call at a time. -/
theorem countFlag_cons (flag b : Bool) (c : Nat) (rs : List (Nat × Bool)) :
    countFlag flag ((c, b) :: rs) = (if b = flag then 1 else 0) + countFlag flag rs := by
  cases b <;> cases flag <;> simp [countFlag, List.filter_cons] <;> omega

/-- On a lease that is not free every call of a run fails and the node is left as it was. -/
theorem reserveCalls_of_busy :
    ∀ (callers : List Nat) (n : Node), n.busy ≠ Census.free →
      countFlag true (reserveCalls callers n).1 = 0 ∧
      countFlag false (reserveCalls callers n).1 = callers.length ∧
      (reserveCalls callers n).1.map Prod.fst = callers := by
  intro callers
  induction callers with
  | nil => intro n _; simp [reserveCalls, countFlag]
  | cons c cs ih =>
    intro n hb
    have hn : n.reserve = (false, n) := by
      simp [Node.reserve, compareAndSwap, hb]
    obtain ⟨h1, h2, h3⟩ := ih n hb
    simp only [reserveCalls, hn, countFlag_cons, h1, h2, h3, List.map_cons, List.length_cons]
    refine ⟨by decide, by simp; omega, trivial⟩

/-- C7: when N >= 1 callers run `reserve()` on one node whose lease is free, with
no `free()` in between, then in whatever order the atomic compare-and-swaps take
effect exactly one call returns true and the other N-1 return false. -/
theorem reserveCalls_exactly_one (callers : List Nat) (n : Node)
    (hfree : n.busy = Census.free) (hN : 1 ≤ callers.length) :
    countFlag true (reserveCalls callers n).1 = 1 ∧
    countFlag false (reserveCalls callers n).1 = callers.length - 1 ∧
    (reserveCalls callers n).1.map Prod.fst = callers := by
  cases callers with
  | nil => simp at hN
  | cons c cs =>
    have hn : n.reserve = (true, { n with busy := Census.busy }) := by
      simp [Node.reserve, compareAndSwap, hfree]
    have hb : ({ n with busy := Census.busy } : Node).busy ≠ Census.free := by
      simp [Census.busy, Census.free]
    obtain ⟨h1, h2, h3⟩ := reserveCalls_of_busy cs _ hb
    simp only [reserveCalls, hn, countFlag_cons, h1, h2, h3, List.map_cons, List.length_cons]
    refine ⟨by decide, by simp, trivial⟩

theorem reserveCalls_exactly_one_witness :
    (sampleHeap.cell 0).busy = Census.free ∧ 1 ≤ [7, 3, 5].length ∧
    (countFlag true (reserveCalls [7, 3, 5] (sampleHeap.cell 0)).1 = 1 ∧
     countFlag false (reserveCalls [7, 3, 5] (sampleHeap.cell 0)).1 = [7, 3, 5].length - 1 ∧
     (reserveCalls [7, 3, 5] (sampleHeap.cell 0)).1.map Prod.fst = [7, 3, 5]) :=
  ⟨by decide, by decide,
   reserveCalls_exactly_one [7, 3, 5] (sampleHeap.cell 0) (by decide) (by decide)⟩

/-- C8: whatever the driver answers during `checkNode(n)` (liveness failure,
is-connected failure, connect failure, list-peers failure or full success), the
lease of `n` is free when `checkNode` returns. -/
theorem checkNode_lease_free (drv : Driver) (now : Time) (h : Heap) (e : Enumerator)
    (n : Ptr) :
    ((checkNode drv now h e n).2.1.cell n).busy = Census.free ∧
    ((checkNode drv now h e n).2.1.cell n).isBusy = false := by
  simp [checkNode, Heap.write, Node.free, Node.isBusy]

/-- C9: `IsStale(d)` is true if and only if `LastChecked + d` is strictly before
`now`; it is false at `now = LastChecked + d` and true at every later `now`. -/
theorem isStale_boundary (n : Node) (d : Duration) (now : Time) :
    (n.IsStale d now = true ↔ n.LastChecked + d < now) ∧
    n.IsStale d (n.LastChecked + d) = false ∧
    (now > n.LastChecked + d → n.IsStale d now = true) := by
  refine ⟨?_, ?_, ?_⟩
  · simp [Node.IsStale, Time.Before, Time.Add]
  · simp [Node.IsStale, Time.Before, Time.Add]
  · intro hlt
    simpa [Node.IsStale, Time.Before, Time.Add] using hlt

theorem isStale_boundary_witness :
    ((sampleHeap.cell 0).IsStale 15 116 = true ↔ (sampleHeap.cell 0).LastChecked + 15 < 116) ∧
    (sampleHeap.cell 0).IsStale 15 ((sampleHeap.cell 0).LastChecked + 15) = false ∧
    (116 > (sampleHeap.cell 0).LastChecked + 15 → (sampleHeap.cell 0).IsStale 15 116 = true) :=
  isStale_boundary (sampleHeap.cell 0) 15 116

/-! ## Poll contracts -/

/-- The peer loop allocates one record per peer address, in order, at the
addresses `h.next, h.next + 1, ...`, appends exactly those to `conns`, and
leaves every record allocated before untouched. -/
theorem addPeers_spec :
    ∀ (peers : List String) (conns : List Ptr) (h : Heap) (e : Enumerator),
      (addPeers peers conns h e).1 = conns ++ List.range' h.next peers.length ∧
      (addPeers peers conns h e).2.1.next = h.next + peers.length ∧
      (∀ q : Nat, q < h.next → (addPeers peers conns h e).2.1.cell q = h.cell q) ∧
      (List.range' h.next peers.length).map (fun q => (addPeers peers conns h e).2.1.cell q)
        = peers.map Node.ofAddress := by
  intro peers
  induction peers with
  | nil => intro conns h e; simp [addPeers]
  | cons p rest ih =>
    intro conns h e
    obtain ⟨h1, h2, h3, h4⟩ :=
      ih (conns ++ [h.next]) (h.alloc (Node.ofAddress p)).2
        (e.AddToCensus (h.alloc (Node.ofAddress p)).2 h.next)
    have hnext : (h.alloc (Node.ofAddress p)).2.next = h.next + 1 := rfl
    rw [hnext] at h1 h2 h3 h4
    have hunf : addPeers (p :: rest) conns h e =
        addPeers rest (conns ++ [h.next]) (h.alloc (Node.ofAddress p)).2
          (e.AddToCensus (h.alloc (Node.ofAddress p)).2 h.next) := rfl
    rw [hunf]
    refine ⟨?_, ?_, ?_, ?_⟩
    · rw [h1]
      simp [List.range'_succ]
    · rw [h2]
      simp only [List.length_cons]
      omega
    · intro q hq
      rw [h3 q (by omega)]
      simp [Heap.alloc, Function.update_noteq (Nat.ne_of_lt hq)]
    · simp only [List.length_cons, List.range'_succ, List.map_cons]
      rw [h4, h3 h.next (by omega)]
      simp [Heap.alloc]

/-- C10: when every driver call of `checkNode(n)` succeeds with version `v` and
peer list `P`, `checkNode` returns no error and afterwards `n` is online, its
`LastChecked` is the time of the poll, its `Version` is the decimal rendering of
`v`, and its connections are exactly the records just allocated for `P`: one per
element, in order, each the node `Node{Address: p}`, whatever the previous
connections were. -/
theorem checkNode_success (drv : Driver) (now : Time) (h : Heap) (e : Enumerator) (n : Nat)
    (v : Int) (c : Bool) (P : List String)
    (hn : n < h.next)
    (hinfo : drv.GetInfo = .ok v)
    (hconn : drv.IsConnectedTo (h.cell n).Address = .ok c)
    (hadd : c = false → drv.AddNode (h.cell n).Address = none)
    (haddrs : drv.Addrs = .ok P) :
    (checkNode drv now h e n).1 = none ∧
    ((checkNode drv now h e n).2.1.cell n).Online = true ∧
    ((checkNode drv now h e n).2.1.cell n).LastChecked = now ∧
    ((checkNode drv now h e n).2.1.cell n).Version = sprintfD v ∧
    ((checkNode drv now h e n).2.1.cell n).Address = (h.cell n).Address ∧
    ((checkNode drv now h e n).2.1.cell n).connections = List.range' h.next P.length ∧
    ((checkNode drv now h e n).2.1.cell n).connections.length = P.length ∧
    ((checkNode drv now h e n).2.1.cell n).connections.map
        (fun q => (checkNode drv now h e n).2.1.cell q) = P.map Node.ofAddress ∧
    ((checkNode drv now h e n).2.1.cell n).connections.map
        (fun q => ((checkNode drv now h e n).2.1.cell q).Address) = P := by
  have haddr1 : ((h.write n ((h.cell n).setVersion (sprintfD v))).cell n).Address
      = (h.cell n).Address := by
    simp [Heap.write, Node.setVersion]
  have hstep : (if !c then drv.AddNode (h.cell n).Address else none) = none := by
    cases c with
    | false => simpa using hadd rfl
    | true => rfl
  obtain ⟨h1, _, h3, h4⟩ :=
    addPeers_spec P [] (h.write n ((h.cell n).setVersion (sprintfD v))) e
  have hnx : (h.write n ((h.cell n).setVersion (sprintfD v))).next = h.next := rfl
  rw [hnx] at h1 h3 h4
  rw [List.nil_append] at h1
  generalize hr : addPeers P [] (h.write n ((h.cell n).setVersion (sprintfD v))) e = r
    at h1 h3 h4
  have hbody : checkNodeBody drv now h e n =
      (none, r.2.1.write n ((r.2.1.cell n).setPolled r.1 now),
       r.2.2.AddToCensus (r.2.1.write n ((r.2.1.cell n).setPolled r.1 now)) n) := by
    simp only [checkNodeBody, hinfo, haddr1, hconn, hstep, haddrs, hr]
  have hcell : r.2.1.cell n = (h.cell n).setVersion (sprintfD v) := by
    rw [h3 n hn]
    simp [Heap.write]
  have hfar : ∀ q ∈ List.range' h.next P.length,
      (checkNode drv now h e n).2.1.cell q = r.2.1.cell q := by
    intro q hq
    have hge : h.next ≤ q := (List.mem_range'_1.mp hq).1
    have hne : q ≠ n := by omega
    simp [checkNode, hbody, Heap.write, Function.update_noteq hne]
  have hconns : ((checkNode drv now h e n).2.1.cell n).connections
      = List.range' h.next P.length := by
    simp [checkNode, hbody, Heap.write, Node.free, Node.setPolled, h1]
  have hmap : (List.range' h.next P.length).map (fun q => (checkNode drv now h e n).2.1.cell q)
      = P.map Node.ofAddress := by
    rw [← h4]
    exact List.map_congr_left hfar
  refine ⟨?_, ?_, ?_, ?_, ?_, hconns, ?_, ?_, ?_⟩
  · simp [checkNode, hbody]
  · simp [checkNode, hbody, Heap.write, Node.free, Node.setPolled]
  · simp [checkNode, hbody, Heap.write, Node.free, Node.setPolled]
  · simp [checkNode, hbody, Heap.write, Node.free, Node.setPolled, hcell, Node.setVersion]
  · simp [checkNode, hbody, Heap.write, Node.free, Node.setPolled, hcell, Node.setVersion]
  · rw [hconns]
    simp
  · rw [hconns]
    exact hmap
  · rw [hconns]
    have hmapA := congrArg (List.map Node.Address) hmap
    simp only [List.map_map] at hmapA
    rw [show (Node.Address ∘ fun q => (checkNode drv now h e n).2.1.cell q)
        = (fun q => ((checkNode drv now h e n).2.1.cell q).Address) from rfl] at hmapA
    rw [hmapA]
    have hid : (Node.Address ∘ Node.ofAddress) = id := by
      funext a
      rfl
    rw [hid, List.map_id]

theorem checkNode_success_witness :
    0 < sampleHeap.next ∧
    sampleDriver.GetInfo = .ok 120000 ∧
    sampleDriver.IsConnectedTo (sampleHeap.cell 0).Address = .ok false ∧
    sampleDriver.Addrs = .ok ["10.0.0.2:18555", "10.0.0.3:18555"] ∧
    ((checkNode sampleDriver 500 sampleHeap sampleEnum 0).1 = none ∧
     ((checkNode sampleDriver 500 sampleHeap sampleEnum 0).2.1.cell 0).Online = true ∧
     ((checkNode sampleDriver 500 sampleHeap sampleEnum 0).2.1.cell 0).LastChecked = 500 ∧
     ((checkNode sampleDriver 500 sampleHeap sampleEnum 0).2.1.cell 0).Version
       = sprintfD 120000 ∧
     ((checkNode sampleDriver 500 sampleHeap sampleEnum 0).2.1.cell 0).Address
       = (sampleHeap.cell 0).Address ∧
     ((checkNode sampleDriver 500 sampleHeap sampleEnum 0).2.1.cell 0).connections
       = List.range' sampleHeap.next ["10.0.0.2:18555", "10.0.0.3:18555"].length ∧
     ((checkNode sampleDriver 500 sampleHeap sampleEnum 0).2.1.cell 0).connections.length
       = ["10.0.0.2:18555", "10.0.0.3:18555"].length ∧
     ((checkNode sampleDriver 500 sampleHeap sampleEnum 0).2.1.cell 0).connections.map
         (fun q => (checkNode sampleDriver 500 sampleHeap sampleEnum 0).2.1.cell q)
       = ["10.0.0.2:18555", "10.0.0.3:18555"].map Node.ofAddress ∧
     ((checkNode sampleDriver 500 sampleHeap sampleEnum 0).2.1.cell 0).connections.map
         (fun q => ((checkNode sampleDriver 500 sampleHeap sampleEnum 0).2.1.cell q).Address)
       = ["10.0.0.2:18555", "10.0.0.3:18555"]) :=
  ⟨by decide, rfl, rfl, rfl,
   checkNode_success sampleDriver 500 sampleHeap sampleEnum 0 120000 false
     ["10.0.0.2:18555", "10.0.0.3:18555"] (by decide) rfl rfl (fun _ => rfl) rfl⟩


/-! ## Failed polls -/

/-- A liveness failure: the error is returned, the node is written offline and
nothing else but the lease changes. -/
theorem checkNode_of_liveness_error (drv : Driver) (now : Time) (h : Heap) (e : Enumerator)
    (n : Ptr) (err : Error) (hinfo : drv.GetInfo = .error err) :
    checkNode drv now h e n =
      (some err, (h.write n ((h.cell n).setOnline false)).write n
        (((h.write n ((h.cell n).setOnline false)).cell n).free), e) := by
  simp [checkNode, checkNodeBody, hinfo]

/-- A failure of the connect step (the is-connected query, or the connect
request when not connected): the error is returned and only the version write
and the lease release have happened. -/
theorem checkNode_of_connect_error (drv : Driver) (now : Time) (h : Heap) (e : Enumerator)
    (n : Ptr) (v : Int) (err : Error) (hinfo : drv.GetInfo = .ok v)
    (hfail : drv.IsConnectedTo (h.cell n).Address = .error err ∨
      (drv.IsConnectedTo (h.cell n).Address = .ok false ∧
       drv.AddNode (h.cell n).Address = some err)) :
    checkNode drv now h e n =
      (some err, (h.write n ((h.cell n).setVersion (sprintfD v))).write n
        (((h.write n ((h.cell n).setVersion (sprintfD v))).cell n).free), e) := by
  have haddr : ((h.write n ((h.cell n).setVersion (sprintfD v))).cell n).Address
      = (h.cell n).Address := by
    simp [Heap.write, Node.setVersion]
  rcases hfail with hq | ⟨hq, ha⟩
  · simp [checkNode, checkNodeBody, hinfo, haddr, hq]
  · simp [checkNode, checkNodeBody, hinfo, haddr, hq, ha]

/-- A list-peers failure: the error is returned and the node is written offline. -/
theorem checkNode_of_addrs_error (drv : Driver) (now : Time) (h : Heap) (e : Enumerator)
    (n : Ptr) (v : Int) (c : Bool) (err : Error) (hinfo : drv.GetInfo = .ok v)
    (hconn : drv.IsConnectedTo (h.cell n).Address = .ok c)
    (hadd : c = false → drv.AddNode (h.cell n).Address = none)
    (haddrs : drv.Addrs = .error err) :
    (checkNode drv now h e n).1 = some err ∧
    ((checkNode drv now h e n).2.1.cell n).Online = false ∧
    (checkNode drv now h e n).2.2 = e := by
  have haddr : ((h.write n ((h.cell n).setVersion (sprintfD v))).cell n).Address
      = (h.cell n).Address := by
    simp [Heap.write, Node.setVersion]
  have hstep : (if !c then drv.AddNode (h.cell n).Address else none) = none := by
    cases c with
    | false => simpa using hadd rfl
    | true => rfl
  have hbody : checkNodeBody drv now h e n =
      (some err, (h.write n ((h.cell n).setVersion (sprintfD v))).write n
        (((h.write n ((h.cell n).setVersion (sprintfD v))).cell n).setOnline false), e) := by
    simp only [checkNodeBody, hinfo, haddr, hconn, hstep, haddrs]
  simp [checkNode, hbody, Heap.write, Node.setOnline, Node.free]


/-- C11 fails as stated: on a node that was online, a failed is-connected query
makes `checkNode` return the error while `Online` stays true. -/
theorem checkNode_connect_failure_keeps_online :
    (sampleHeap.cell 0).Online = true ∧
    samplePeerInfoDown.IsConnectedTo (sampleHeap.cell 0).Address
      = .error "getpeerinfo: timeout" ∧
    (checkNode samplePeerInfoDown 500 sampleHeap sampleEnum 0).1
      = some "getpeerinfo: timeout" ∧
    ((checkNode samplePeerInfoDown 500 sampleHeap sampleEnum 0).2.1.cell 0).Online = true :=
  ⟨by decide, rfl, by decide, by decide⟩

/-- C11 (amended): whichever per-poll driver call fails, `checkNode` returns
that error; and when the failing call is the liveness call or the list-peers
call, the node is offline when `checkNode` returns. -/
theorem checkNode_failure_reported (drv : Driver) (now : Time) (h : Heap) (e : Enumerator)
    (n : Ptr) :
    (∀ err : Error, drv.GetInfo = .error err →
      (checkNode drv now h e n).1 = some err ∧
      ((checkNode drv now h e n).2.1.cell n).Online = false) ∧
    (∀ (v : Int) (err : Error), drv.GetInfo = .ok v →
      drv.IsConnectedTo (h.cell n).Address = .error err →
      (checkNode drv now h e n).1 = some err) ∧
    (∀ (v : Int) (err : Error), drv.GetInfo = .ok v →
      drv.IsConnectedTo (h.cell n).Address = .ok false →
      drv.AddNode (h.cell n).Address = some err →
      (checkNode drv now h e n).1 = some err) ∧
    (∀ (v : Int) (c : Bool) (err : Error), drv.GetInfo = .ok v →
      drv.IsConnectedTo (h.cell n).Address = .ok c →
      (c = false → drv.AddNode (h.cell n).Address = none) →
      drv.Addrs = .error err →
      (checkNode drv now h e n).1 = some err ∧
      ((checkNode drv now h e n).2.1.cell n).Online = false) := by
  refine ⟨?_, ?_, ?_, ?_⟩
  · intro err hinfo
    rw [checkNode_of_liveness_error drv now h e n err hinfo]
    simp [Heap.write, Node.setOnline, Node.free]
  · intro v err hinfo hq
    rw [checkNode_of_connect_error drv now h e n v err hinfo (Or.inl hq)]
  · intro v err hinfo hq ha
    rw [checkNode_of_connect_error drv now h e n v err hinfo (Or.inr ⟨hq, ha⟩)]
  · intro v c err hinfo hconn hadd haddrs
    obtain ⟨h1, h2, _⟩ := checkNode_of_addrs_error drv now h e n v c err hinfo hconn hadd haddrs
    exact ⟨h1, h2⟩

theorem checkNode_failure_reported_witness :
    ((checkNode sampleLivenessDown 500 sampleHeap sampleEnum 0).1
        = some "getinfo: connection refused" ∧
      ((checkNode sampleLivenessDown 500 sampleHeap sampleEnum 0).2.1.cell 0).Online = false) ∧
    (checkNode samplePeerInfoDown 500 sampleHeap sampleEnum 0).1
        = some "getpeerinfo: timeout" ∧
    (checkNode sampleConnectDown 500 sampleHeap sampleEnum 0).1 = some "addnode: rejected" ∧
    ((checkNode sampleAddrsDown 500 sampleHeap sampleEnum 0).1 = some "getaddrcache: timeout" ∧
      ((checkNode sampleAddrsDown 500 sampleHeap sampleEnum 0).2.1.cell 0).Online = false) :=
  ⟨(checkNode_failure_reported sampleLivenessDown 500 sampleHeap sampleEnum 0).1
      "getinfo: connection refused" rfl,
   (checkNode_failure_reported samplePeerInfoDown 500 sampleHeap sampleEnum 0).2.1
      120000 "getpeerinfo: timeout" rfl rfl,
   (checkNode_failure_reported sampleConnectDown 500 sampleHeap sampleEnum 0).2.2.1
      120000 "addnode: rejected" rfl rfl rfl,
   (checkNode_failure_reported sampleAddrsDown 500 sampleHeap sampleEnum 0).2.2.2
      120000 true "getaddrcache: timeout" rfl rfl (fun hc => Bool.noConfusion hc) rfl⟩

/-- C12: when the liveness call succeeds and the connect step fails (the
is-connected query, or the connect request), `checkNode` returns that error and
the node's `Online`, `LastChecked`, connections, `Address` and `Hops` are what
they were on entry; `Version` is the new rendering, the lease is free, and no
other record and no registry entry has changed. -/
theorem checkNode_connect_failure_frame (drv : Driver) (now : Time) (h : Heap)
    (e : Enumerator) (n : Ptr) (v : Int) (err : Error) (hinfo : drv.GetInfo = .ok v)
    (hfail : drv.IsConnectedTo (h.cell n).Address = .error err ∨
      (drv.IsConnectedTo (h.cell n).Address = .ok false ∧
       drv.AddNode (h.cell n).Address = some err)) :
    (checkNode drv now h e n).1 = some err ∧
    ((checkNode drv now h e n).2.1.cell n).Online = (h.cell n).Online ∧
    ((checkNode drv now h e n).2.1.cell n).LastChecked = (h.cell n).LastChecked ∧
    ((checkNode drv now h e n).2.1.cell n).connections = (h.cell n).connections ∧
    ((checkNode drv now h e n).2.1.cell n).Address = (h.cell n).Address ∧
    ((checkNode drv now h e n).2.1.cell n).Hops = (h.cell n).Hops ∧
    ((checkNode drv now h e n).2.1.cell n).Version = sprintfD v ∧
    ((checkNode drv now h e n).2.1.cell n).busy = Census.free ∧
    (∀ q : Ptr, q ≠ n → (checkNode drv now h e n).2.1.cell q = h.cell q) ∧
    (checkNode drv now h e n).2.1.next = h.next ∧
    (checkNode drv now h e n).2.2 = e := by
  rw [checkNode_of_connect_error drv now h e n v err hinfo hfail]
  refine ⟨rfl, ?_, ?_, ?_, ?_, ?_, ?_, ?_, ?_, rfl, rfl⟩
  all_goals first
    | (intro q hq
       simp [Heap.write, Function.update_noteq hq])
    | simp [Heap.write, Node.setVersion, Node.free]

theorem checkNode_connect_failure_frame_witness :
    sampleConnectDown.GetInfo = .ok 120000 ∧
    (checkNode sampleConnectDown 500 sampleHeap sampleEnum 0).1 = some "addnode: rejected" ∧
    ((checkNode sampleConnectDown 500 sampleHeap sampleEnum 0).2.1.cell 0).Online
      = (sampleHeap.cell 0).Online ∧
    ((checkNode sampleConnectDown 500 sampleHeap sampleEnum 0).2.1.cell 0).LastChecked
      = (sampleHeap.cell 0).LastChecked ∧
    ((checkNode sampleConnectDown 500 sampleHeap sampleEnum 0).2.1.cell 0).connections
      = (sampleHeap.cell 0).connections ∧
    ((checkNode sampleConnectDown 500 sampleHeap sampleEnum 0).2.1.cell 0).Address
      = (sampleHeap.cell 0).Address ∧
    ((checkNode sampleConnectDown 500 sampleHeap sampleEnum 0).2.1.cell 0).Hops
      = (sampleHeap.cell 0).Hops ∧
    ((checkNode sampleConnectDown 500 sampleHeap sampleEnum 0).2.1.cell 0).Version
      = sprintfD 120000 ∧
    ((checkNode sampleConnectDown 500 sampleHeap sampleEnum 0).2.1.cell 0).busy = Census.free ∧
    (∀ q : Ptr, q ≠ 0 →
      (checkNode sampleConnectDown 500 sampleHeap sampleEnum 0).2.1.cell q = sampleHeap.cell q) ∧
    (checkNode sampleConnectDown 500 sampleHeap sampleEnum 0).2.1.next = sampleHeap.next ∧
    (checkNode sampleConnectDown 500 sampleHeap sampleEnum 0).2.2 = sampleEnum :=
  ⟨rfl, checkNode_connect_failure_frame sampleConnectDown 500 sampleHeap sampleEnum 0 120000
      "addnode: rejected" rfl (Or.inr ⟨rfl, rfl⟩)⟩

/-- C14 fails as stated: `New` registers no seed, so after a failed liveness
call on the only seed the seed is not in the census. -/
theorem checkNode_seed_not_registered :
    sampleLivenessDown.GetInfo = .error "getinfo: connection refused" ∧
    (checkNode sampleLivenessDown 500 sampleHeap (New [0] 15 1) 0).2.2.IsInCensus
      (checkNode sampleLivenessDown 500 sampleHeap (New [0] 15 1) 0).2.1 0 = false :=
  ⟨rfl, by decide⟩

/-- C14 (amended): for an enumerator built by `New` from the single seed `n`, a
failed liveness call during `checkNode(n)` returns the error and leaves the
registry as `New` made it, that is empty (the seed is not in the census); `n` is
offline and its lease is free. -/
theorem checkNode_seed_liveness_failure (drv : Driver) (now : Time) (h : Heap) (n : Ptr)
    (interval : Duration) (workers : Int) (err : Error)
    (hinfo : drv.GetInfo = .error err) :
    (checkNode drv now h (New [n] interval workers) n).1 = some err ∧
    (checkNode drv now h (New [n] interval workers) n).2.2 = New [n] interval workers ∧
    (checkNode drv now h (New [n] interval workers) n).2.2.size = 0 ∧
    (checkNode drv now h (New [n] interval workers) n).2.2.IsInCensus
      (checkNode drv now h (New [n] interval workers) n).2.1 n = false ∧
    ((checkNode drv now h (New [n] interval workers) n).2.1.cell n).Online = false ∧
    ((checkNode drv now h (New [n] interval workers) n).2.1.cell n).isBusy = false := by
  rw [checkNode_of_liveness_error drv now h (New [n] interval workers) n err hinfo]
  refine ⟨rfl, rfl, rfl, ?_, ?_, ?_⟩
  · simp [Enumerator.IsInCensus, New]
  · simp [Heap.write, Node.setOnline, Node.free]
  · simp [Heap.write, Node.free, Node.isBusy]

theorem checkNode_seed_liveness_failure_witness :
    sampleLivenessDown.GetInfo = .error "getinfo: connection refused" ∧
    ((checkNode sampleLivenessDown 500 sampleHeap (New [0] 15 1) 0).1
        = some "getinfo: connection refused" ∧
     (checkNode sampleLivenessDown 500 sampleHeap (New [0] 15 1) 0).2.2 = New [0] 15 1 ∧
     (checkNode sampleLivenessDown 500 sampleHeap (New [0] 15 1) 0).2.2.size = 0 ∧
     (checkNode sampleLivenessDown 500 sampleHeap (New [0] 15 1) 0).2.2.IsInCensus
       (checkNode sampleLivenessDown 500 sampleHeap (New [0] 15 1) 0).2.1 0 = false ∧
     ((checkNode sampleLivenessDown 500 sampleHeap (New [0] 15 1) 0).2.1.cell 0).Online
       = false ∧
     ((checkNode sampleLivenessDown 500 sampleHeap (New [0] 15 1) 0).2.1.cell 0).isBusy
       = false) :=
  ⟨rfl, checkNode_seed_liveness_failure sampleLivenessDown 500 sampleHeap 0 15 1
      "getinfo: connection refused" rfl⟩


/-! ## Successful polls and the registry -/

/-- The keys after `AddToCensus(n)` are the keys before together with the address of `n`. -/
theorem mem_addToCensus (h : Heap) (e : Enumerator) (n : Ptr) (a : String) :
    a ∈ (e.AddToCensus h n).nodes ↔ a = (h.cell n).Address ∨ a ∈ e.nodes := by
  cases hl : e.nodes.lookup (h.cell n).Address with
  | none =>
    simp [Enumerator.AddToCensus, hl]
  | some q =>
    have hin : (h.cell n).Address ∈ e.nodes :=
      AList.lookup_isSome.mp (by rw [hl]; rfl)
    simp only [Enumerator.AddToCensus, hl, Option.isSome_some, Bool.not_true]
    constructor
    · intro ha
      exact Or.inr ha
    · rintro (rfl | ha)
      · exact hin
      · exact ha

/-- `AddToCensus` never replaces or deletes an entry. -/
theorem lookup_addToCensus_of_mem (h : Heap) (e : Enumerator) (n : Ptr) (a : String)
    (ha : a ∈ e.nodes) :
    (e.AddToCensus h n).nodes.lookup a = e.nodes.lookup a := by
  cases hl : e.nodes.lookup (h.cell n).Address with
  | none =>
    have hne : a ≠ (h.cell n).Address := by
      rintro rfl
      exact (AList.lookup_eq_none.mp hl) ha
    simp [Enumerator.AddToCensus, hl, AList.lookup_insert_ne hne]
  | some q =>
    simp [Enumerator.AddToCensus, hl]

/-- `AddToCensus` changes no field of the enumerator but `nodes`. -/
theorem addToCensus_fields (h : Heap) (e : Enumerator) (n : Ptr) :
    (e.AddToCensus h n).interval = e.interval ∧
    (e.AddToCensus h n).seeds = e.seeds ∧
    (e.AddToCensus h n).maxWorkers = e.maxWorkers := by
  cases hl : e.nodes.lookup (h.cell n).Address <;> simp [Enumerator.AddToCensus, hl]

/-- The peer loop adds exactly the peer addresses to the keys of the registry,
keeps every entry that was there, and changes no other field. -/
theorem addPeers_registry :
    ∀ (peers : List String) (conns : List Ptr) (h : Heap) (e : Enumerator),
      (∀ a : String, a ∈ (addPeers peers conns h e).2.2.nodes ↔ a ∈ e.nodes ∨ a ∈ peers) ∧
      (∀ a : String, a ∈ e.nodes →
        (addPeers peers conns h e).2.2.nodes.lookup a = e.nodes.lookup a) ∧
      (addPeers peers conns h e).2.2.interval = e.interval ∧
      (addPeers peers conns h e).2.2.seeds = e.seeds := by
  intro peers
  induction peers with
  | nil => intro conns h e; simp [addPeers]
  | cons p rest ih =>
    intro conns h e
    have hunf : addPeers (p :: rest) conns h e =
        addPeers rest (conns ++ [h.next]) (h.alloc (Node.ofAddress p)).2
          (e.AddToCensus (h.alloc (Node.ofAddress p)).2 h.next) := rfl
    have haddr : ((h.alloc (Node.ofAddress p)).2.cell h.next).Address = p := by
      simp [Heap.alloc, Node.ofAddress]
    obtain ⟨h1, h2, h3, h4⟩ :=
      ih (conns ++ [h.next]) (h.alloc (Node.ofAddress p)).2
        (e.AddToCensus (h.alloc (Node.ofAddress p)).2 h.next)
    obtain ⟨f1, f2, _⟩ := addToCensus_fields (h.alloc (Node.ofAddress p)).2 e h.next
    rw [hunf]
    refine ⟨?_, ?_, by rw [h3, f1], by rw [h4, f2]⟩
    · intro a
      rw [h1 a, mem_addToCensus, haddr]
      simp only [List.mem_cons]
      tauto
    · intro a ha
      have hin : a ∈ (e.AddToCensus (h.alloc (Node.ofAddress p)).2 h.next).nodes :=
        (mem_addToCensus _ _ _ _).mpr (Or.inr ha)
      rw [h2 a hin]
      exact lookup_addToCensus_of_mem _ e h.next a ha

/-- The state a fully successful `checkNode` ends in, in terms of the peer loop. -/
theorem checkNode_of_success (drv : Driver) (now : Time) (h : Heap) (e : Enumerator) (n : Ptr)
    (v : Int) (c : Bool) (P : List String)
    (hinfo : drv.GetInfo = .ok v)
    (hconn : drv.IsConnectedTo (h.cell n).Address = .ok c)
    (hadd : c = false → drv.AddNode (h.cell n).Address = none)
    (haddrs : drv.Addrs = .ok P)
    (r : List Ptr × Heap × Enumerator)
    (hr : addPeers P [] (h.write n ((h.cell n).setVersion (sprintfD v))) e = r) :
    checkNode drv now h e n =
      (none,
       (r.2.1.write n ((r.2.1.cell n).setPolled r.1 now)).write n
         (((r.2.1.write n ((r.2.1.cell n).setPolled r.1 now)).cell n).free),
       r.2.2.AddToCensus (r.2.1.write n ((r.2.1.cell n).setPolled r.1 now)) n) := by
  have haddr1 : ((h.write n ((h.cell n).setVersion (sprintfD v))).cell n).Address
      = (h.cell n).Address := by
    simp [Heap.write, Node.setVersion]
  have hstep : (if !c then drv.AddNode (h.cell n).Address else none) = none := by
    cases c with
    | false => simpa using hadd rfl
    | true => rfl
  have hbody : checkNodeBody drv now h e n =
      (none, r.2.1.write n ((r.2.1.cell n).setPolled r.1 now),
       r.2.2.AddToCensus (r.2.1.write n ((r.2.1.cell n).setPolled r.1 now)) n) := by
    simp only [checkNodeBody, hinfo, haddr1, hconn, hstep, haddrs, hr]
  simp only [checkNode, hbody]

/-- The heap a fully successful `checkNode` leaves: the polled record, the
records allocated for the peers, and everything else untouched. -/
theorem checkNode_success_heap (drv : Driver) (now : Time) (h : Heap) (e : Enumerator)
    (n : Nat) (v : Int) (c : Bool) (P : List String)
    (hn : n < h.next)
    (hinfo : drv.GetInfo = .ok v)
    (hconn : drv.IsConnectedTo (h.cell n).Address = .ok c)
    (hadd : c = false → drv.AddNode (h.cell n).Address = none)
    (haddrs : drv.Addrs = .ok P) :
    (checkNode drv now h e n).2.1.cell n =
      (((h.cell n).setVersion (sprintfD v)).setPolled (List.range' h.next P.length) now).free ∧
    (checkNode drv now h e n).2.1.next = h.next + P.length ∧
    (∀ q : Nat, q < h.next → q ≠ n → (checkNode drv now h e n).2.1.cell q = h.cell q) ∧
    (List.range' h.next P.length).map (fun q => (checkNode drv now h e n).2.1.cell q)
      = P.map Node.ofAddress := by
  obtain ⟨h1, h2, h3, h4⟩ :=
    addPeers_spec P [] (h.write n ((h.cell n).setVersion (sprintfD v))) e
  have hnx : (h.write n ((h.cell n).setVersion (sprintfD v))).next = h.next := rfl
  rw [hnx] at h1 h2 h3 h4
  rw [List.nil_append] at h1
  generalize hr : addPeers P [] (h.write n ((h.cell n).setVersion (sprintfD v))) e = r
    at h1 h2 h3 h4
  rw [checkNode_of_success drv now h e n v c P hinfo hconn hadd haddrs r hr]
  have hcell : r.2.1.cell n = (h.cell n).setVersion (sprintfD v) := by
    rw [h3 n hn]
    simp [Heap.write]
  refine ⟨?_, ?_, ?_, ?_⟩
  · simp [Heap.write, Node.free, Node.setPolled, hcell, Node.setVersion, h1]
  · simpa [Heap.write] using h2
  · intro q hq hne
    simp [Heap.write, Function.update_noteq hne, h3 q hq]
  · rw [← h4]
    apply List.map_congr_left
    intro q hq
    have hge : h.next ≤ q := (List.mem_range'_1.mp hq).1
    have hne : q ≠ n := Nat.ne_of_gt (Nat.lt_of_lt_of_le hn hge)
    simp [Heap.write, Function.update_noteq hne]


/-- C13 fails as stated: when the peer list names the seed's own address, the
record allocated for that peer is registered first, the re-registration of the
seed is a no-op, and `Get` on the seed's address returns that fresh record:
offline and without connections. -/
theorem checkNode_seed_shadowed :
    sampleSelfPeer.Addrs = .ok ["10.0.0.2:18555", "10.0.0.1:18555"] ∧
    (sampleHeap.cell 0).Address = "10.0.0.1:18555" ∧
    (checkNode sampleSelfPeer 500 sampleHeap (New [0] 15 1) 0).1 = none ∧
    (checkNode sampleSelfPeer 500 sampleHeap (New [0] 15 1) 0).2.2.Get "10.0.0.1:18555"
      = (some 4, true) ∧
    ((checkNode sampleSelfPeer 500 sampleHeap (New [0] 15 1) 0).2.1.cell 4).Online = false ∧
    ((checkNode sampleSelfPeer 500 sampleHeap (New [0] 15 1) 0).2.1.cell 4).connections = [] :=
  ⟨rfl, by decide, by decide, by decide, by decide, by decide⟩

/-- C13 (amended): for an enumerator built by `New` from the single seed `n` and
any peer list `P`, after one fully successful `checkNode(n)` the keys of the
registry are exactly `n.Address` together with the addresses of `P` (so it has as
many entries as there are distinct addresses among them), and the record `n` is
online with connections that carry exactly the addresses of `P`, in order; and
when `P` does not name `n.Address`, the registry has one entry more than `P` has
distinct addresses and `Get(n.Address)` returns `n`. -/
theorem checkNode_single_seed (drv : Driver) (now : Time) (h : Heap) (n : Nat)
    (interval : Duration) (workers : Int) (v : Int) (c : Bool) (P : List String)
    (hn : n < h.next)
    (hinfo : drv.GetInfo = .ok v)
    (hconn : drv.IsConnectedTo (h.cell n).Address = .ok c)
    (hadd : c = false → drv.AddNode (h.cell n).Address = none)
    (haddrs : drv.Addrs = .ok P) :
    (∀ a : String, a ∈ (checkNode drv now h (New [n] interval workers) n).2.2.nodes ↔
      a = (h.cell n).Address ∨ a ∈ P) ∧
    (checkNode drv now h (New [n] interval workers) n).2.2.size
      = (insert (h.cell n).Address P.toFinset).card ∧
    ((checkNode drv now h (New [n] interval workers) n).2.1.cell n).Online = true ∧
    ((checkNode drv now h (New [n] interval workers) n).2.1.cell n).connections.map
        (fun q => ((checkNode drv now h (New [n] interval workers) n).2.1.cell q).Address)
      = P ∧
    ((h.cell n).Address ∉ P →
      (checkNode drv now h (New [n] interval workers) n).2.2.size = P.toFinset.card + 1 ∧
      (checkNode drv now h (New [n] interval workers) n).2.2.Get (h.cell n).Address
        = (some n, true)) := by
  obtain ⟨hc1, _, _, hc4⟩ :=
    checkNode_success_heap drv now h (New [n] interval workers) n v c P hn hinfo hconn hadd
      haddrs
  obtain ⟨_, _, h3, _⟩ :=
    addPeers_spec P [] (h.write n ((h.cell n).setVersion (sprintfD v)))
      (New [n] interval workers)
  obtain ⟨r1, _, _, _⟩ :=
    addPeers_registry P [] (h.write n ((h.cell n).setVersion (sprintfD v)))
      (New [n] interval workers)
  have hnx : (h.write n ((h.cell n).setVersion (sprintfD v))).next = h.next := rfl
  rw [hnx] at h3
  have hreg := congrArg (fun t => t.2.2)
    (checkNode_of_success drv now h (New [n] interval workers) n v c P hinfo hconn hadd haddrs
      _ rfl)
  simp only at hreg
  generalize hr : addPeers P [] (h.write n ((h.cell n).setVersion (sprintfD v)))
    (New [n] interval workers) = r at h3 r1 hreg
  have hcell : r.2.1.cell n = (h.cell n).setVersion (sprintfD v) := by
    rw [h3 n hn]
    simp [Heap.write]
  have haddr : ((r.2.1.write n ((r.2.1.cell n).setPolled r.1 now)).cell n).Address
      = (h.cell n).Address := by
    simp [Heap.write, Node.setPolled, hcell, Node.setVersion]
  have hempty : ∀ a : String, a ∉ (New [n] interval workers).nodes := by
    intro a
    simp [New]
  have hkeys : ∀ a : String,
      a ∈ (checkNode drv now h (New [n] interval workers) n).2.2.nodes ↔
        a = (h.cell n).Address ∨ a ∈ P := by
    intro a
    rw [hreg, mem_addToCensus, haddr, r1 a]
    constructor
    · rintro (ha | ha | ha)
      · exact Or.inl ha
      · exact absurd ha (hempty a)
      · exact Or.inr ha
    · rintro (ha | ha)
      · exact Or.inl ha
      · exact Or.inr (Or.inr ha)
  have hsize : (checkNode drv now h (New [n] interval workers) n).2.2.size
      = (insert (h.cell n).Address P.toFinset).card := by
    have hnd := (checkNode drv now h (New [n] interval workers) n).2.2.nodes.keys_nodup
    have hlen : (checkNode drv now h (New [n] interval workers) n).2.2.size
        = (checkNode drv now h (New [n] interval workers) n).2.2.nodes.keys.length := by
      simp [Enumerator.size, AList.keys, List.keys]
    rw [hlen, ← List.toFinset_card_of_nodup hnd]
    congr 1
    ext a
    rw [List.mem_toFinset, ← AList.mem_keys, hkeys a]
    simp
  refine ⟨hkeys, hsize, ?_, ?_, ?_⟩
  · rw [hc1]
    rfl
  · rw [hc1]
    have hcs : ((((h.cell n).setVersion (sprintfD v)).setPolled
        (List.range' h.next P.length) now).free).connections = List.range' h.next P.length := rfl
    rw [hcs]
    have hmapA := congrArg (List.map Node.Address) hc4
    simp only [List.map_map] at hmapA
    have hid : (Node.Address ∘ Node.ofAddress) = id := by
      funext a
      rfl
    rw [hid, List.map_id] at hmapA
    exact hmapA
  · intro hP
    have hnotin : (h.cell n).Address ∉ r.2.2.nodes := by
      intro hin
      rcases (r1 _).mp hin with ha | ha
      · exact hempty _ ha
      · exact hP ha
    refine ⟨?_, ?_⟩
    · rw [hsize]
      exact Finset.card_insert_of_not_mem (fun hin => hP (List.mem_toFinset.mp hin))
    · rw [hreg]
      have hl : r.2.2.nodes.lookup
          ((r.2.1.write n ((r.2.1.cell n).setPolled r.1 now)).cell n).Address = none := by
        rw [haddr]
        exact AList.lookup_eq_none.mpr hnotin
      simp only [Enumerator.Get, Enumerator.AddToCensus, hl, haddr]
      simp

theorem checkNode_single_seed_witness :
    0 < sampleHeap.next ∧
    (sampleHeap.cell 0).Address ∉ ["10.0.0.2:18555", "10.0.0.3:18555"] ∧
    (insert (sampleHeap.cell 0).Address
      (["10.0.0.2:18555", "10.0.0.3:18555"] : List String).toFinset).card = 3 ∧
    ((∀ a : String, a ∈ (checkNode sampleDriver 500 sampleHeap (New [0] 15 1) 0).2.2.nodes ↔
        a = (sampleHeap.cell 0).Address ∨ a ∈ ["10.0.0.2:18555", "10.0.0.3:18555"]) ∧
     (checkNode sampleDriver 500 sampleHeap (New [0] 15 1) 0).2.2.size
       = (insert (sampleHeap.cell 0).Address
           (["10.0.0.2:18555", "10.0.0.3:18555"] : List String).toFinset).card ∧
     ((checkNode sampleDriver 500 sampleHeap (New [0] 15 1) 0).2.1.cell 0).Online = true ∧
     ((checkNode sampleDriver 500 sampleHeap (New [0] 15 1) 0).2.1.cell 0).connections.map
         (fun q => ((checkNode sampleDriver 500 sampleHeap (New [0] 15 1) 0).2.1.cell q).Address)
       = ["10.0.0.2:18555", "10.0.0.3:18555"]) ∧
    ((checkNode sampleDriver 500 sampleHeap (New [0] 15 1) 0).2.2.size
       = (["10.0.0.2:18555", "10.0.0.3:18555"] : List String).toFinset.card + 1 ∧
     (checkNode sampleDriver 500 sampleHeap (New [0] 15 1) 0).2.2.Get
         (sampleHeap.cell 0).Address = (some 0, true)) :=
  ⟨by decide, by decide, by decide,
   ⟨(checkNode_single_seed sampleDriver 500 sampleHeap 0 15 1 120000 false
      ["10.0.0.2:18555", "10.0.0.3:18555"] (by decide) rfl rfl (fun _ => rfl) rfl).1,
    (checkNode_single_seed sampleDriver 500 sampleHeap 0 15 1 120000 false
      ["10.0.0.2:18555", "10.0.0.3:18555"] (by decide) rfl rfl (fun _ => rfl) rfl).2.1,
    (checkNode_single_seed sampleDriver 500 sampleHeap 0 15 1 120000 false
      ["10.0.0.2:18555", "10.0.0.3:18555"] (by decide) rfl rfl (fun _ => rfl) rfl).2.2.1,
    (checkNode_single_seed sampleDriver 500 sampleHeap 0 15 1 120000 false
      ["10.0.0.2:18555", "10.0.0.3:18555"] (by decide) rfl rfl (fun _ => rfl) rfl).2.2.2.1⟩,
   (checkNode_single_seed sampleDriver 500 sampleHeap 0 15 1 120000 false
      ["10.0.0.2:18555", "10.0.0.3:18555"] (by decide) rfl rfl (fun _ => rfl) rfl).2.2.2.2
     (by decide)⟩


/-! ## Snapshots -/

/-- The registry invariant, entry by entry. -/
theorem keyedByAddress_iff (h : Heap) (e : Enumerator) :
    e.keyedByAddress h = true ↔
      ∀ kv ∈ e.nodes.entries, (h.cell kv.2).Address = kv.1 := by
  simp [Enumerator.keyedByAddress, List.all_eq_true]

/-- `New` establishes the registry invariant. -/
theorem keyedByAddress_new (h : Heap) (seeds : List Ptr) (interval : Duration)
    (workers : Int) : (New seeds interval workers).keyedByAddress h = true := by
  simp [Enumerator.keyedByAddress, New]

/-- `AddToCensus` keeps the registry invariant. -/
theorem keyedByAddress_addToCensus (h : Heap) (e : Enumerator) (n : Ptr)
    (hk : e.keyedByAddress h = true) : (e.AddToCensus h n).keyedByAddress h = true := by
  cases hl : e.nodes.lookup (h.cell n).Address with
  | none =>
    have hnot : (h.cell n).Address ∉ e.nodes := AList.lookup_eq_none.mp hl
    rw [keyedByAddress_iff] at hk ⊢
    intro kv hkv
    have hent : (e.AddToCensus h n).nodes.entries = ⟨(h.cell n).Address, n⟩ :: e.nodes.entries := by
      simp only [Enumerator.AddToCensus, hl, Option.isSome_none, Bool.not_false, if_true]
      exact AList.insert_entries_of_neg hnot
    rw [hent] at hkv
    rcases List.mem_cons.mp hkv with rfl | hkv
    · rfl
    · exact hk kv hkv
  | some q =>
    simpa [Enumerator.AddToCensus, hl] using hk

/-- `RemoveFromCensus` keeps the registry invariant. -/
theorem keyedByAddress_removeFromCensus (h : Heap) (e : Enumerator) (n : Ptr)
    (hk : e.keyedByAddress h = true) : (e.RemoveFromCensus h n).keyedByAddress h = true := by
  rw [keyedByAddress_iff] at hk ⊢
  intro kv hkv
  have hsub : (e.RemoveFromCensus h n).nodes.entries ⊆ e.nodes.entries := by
    simp only [Enumerator.RemoveFromCensus, AList.erase]
    exact (List.kerase_sublist _ _).subset
  exact hk kv (hsub hkv)

/-- C16: `Nodes()` returns one pointer per registry entry, so its length is the
number of entries; a pointer is in the list exactly when some key maps to it;
and on a registry whose keys are the addresses of their records, no record
occurs twice and the addresses of the returned nodes are exactly the keys. -/
theorem nodes_snapshot (h : Heap) (e : Enumerator) (hk : e.keyedByAddress h = true) :
    e.Nodes.length = e.size ∧
    (∀ p : Ptr, p ∈ e.Nodes ↔ ∃ a : String, e.nodes.lookup a = some p) ∧
    e.Nodes.Nodup ∧
    e.Nodes.map (fun p => (h.cell p).Address) = e.nodes.keys ∧
    (∀ a : String, a ∈ e.Nodes.map (fun p => (h.cell p).Address) ↔ a ∈ e.nodes) := by
  have hinv := (keyedByAddress_iff h e).mp hk
  have hmap : e.Nodes.map (fun p => (h.cell p).Address) = e.nodes.keys := by
    simp only [Enumerator.Nodes, List.map_map, AList.keys, List.keys]
    apply List.map_congr_left
    intro kv hkv
    exact hinv kv hkv
  refine ⟨by simp [Enumerator.Nodes, Enumerator.size], ?_, ?_, hmap, ?_⟩
  · intro p
    simp only [Enumerator.Nodes, List.mem_map]
    constructor
    · rintro ⟨kv, hkv, rfl⟩
      exact ⟨kv.1, AList.mem_lookup_iff.mpr (by simpa using hkv)⟩
    · rintro ⟨a, ha⟩
      exact ⟨⟨a, p⟩, AList.mem_lookup_iff.mp ha, rfl⟩
  · apply List.Nodup.of_map (fun p => (h.cell p).Address)
    rw [hmap]
    exact e.nodes.keys_nodup
  · intro a
    rw [hmap]
    exact AList.mem_keys.symm

theorem nodes_snapshot_witness :
    sampleEnum2.keyedByAddress sampleHeap = true ∧
    sampleEnum2.Nodes = [2, 0] ∧
    (sampleEnum2.Nodes.length = sampleEnum2.size ∧
     (∀ p : Ptr, p ∈ sampleEnum2.Nodes ↔ ∃ a : String, sampleEnum2.nodes.lookup a = some p) ∧
     sampleEnum2.Nodes.Nodup ∧
     sampleEnum2.Nodes.map (fun p => (sampleHeap.cell p).Address) = sampleEnum2.nodes.keys ∧
     (∀ a : String, a ∈ sampleEnum2.Nodes.map (fun p => (sampleHeap.cell p).Address) ↔
       a ∈ sampleEnum2.nodes)) :=
  ⟨by decide, by decide, nodes_snapshot sampleHeap sampleEnum2 (by decide)⟩


/-! ## Re-polling -/

/-- `pickNode` does not return a node that is fresh at every clock reading of the scan. -/
theorem pickNode_skips_fresh (e : Enumerator) (h : Heap) (clock : Nat → Time) (n : Ptr)
    (hfresh : ∀ i : Nat, clock i ≤ (h.cell n).LastChecked + e.interval) :
    (e.pickNode h clock).1 ≠ (some n, true) := by
  intro hret
  obtain ⟨m, i, a, hr, _, hs, _⟩ :=
    pickNodeLoop_sound e.interval clock e.nodes.entries 0 h (some n) hret
  have hmn : n = m := Option.some.inj hr
  subst hmn
  have hlt : (h.cell n).LastChecked + e.interval < clock (0 + i) := by
    simpa [Node.isStale] using hs
  exact absurd hlt (not_lt.mpr (hfresh (0 + i)))

/-- A fully successful `checkNode` leaves the polling interval as it was. -/
theorem checkNode_success_interval (drv : Driver) (now : Time) (h : Heap) (e : Enumerator)
    (n : Ptr) (v : Int) (c : Bool) (P : List String)
    (hinfo : drv.GetInfo = .ok v)
    (hconn : drv.IsConnectedTo (h.cell n).Address = .ok c)
    (hadd : c = false → drv.AddNode (h.cell n).Address = none)
    (haddrs : drv.Addrs = .ok P) :
    (checkNode drv now h e n).2.2.interval = e.interval := by
  rw [checkNode_of_success drv now h e n v c P hinfo hconn hadd haddrs _ rfl]
  rw [(addToCensus_fields _ _ n).1]
  exact (addPeers_registry P [] _ e).2.2.1

/-- C18 fails as stated, in two ways.  A poll that fails does not stamp
`LastChecked`, so one nanosecond after the failed poll at `500` (interval `15`)
`pickNode` returns the same node again.  And `checkSeeds` polls every seed it
can reserve in each pass, stale or not: with two seeds, of which the first is
polled with success at `302` and the second fails, the next pass polls the first
seed again at `306`, well within the interval of `15`. -/
theorem pickNode_after_failed_poll :
    ((checkNode samplePeerInfoDown 500 sampleHeap sampleEnum 0).1
      = some "getpeerinfo: timeout" ∧
     (501 : Time) ≤ 500 + (checkNode samplePeerInfoDown 500 sampleHeap sampleEnum 0).2.2.interval ∧
     ((checkNode samplePeerInfoDown 500 sampleHeap sampleEnum 0).2.2.pickNode
       (checkNode samplePeerInfoDown 500 sampleHeap sampleEnum 0).2.1 (fun _ => 501)).1
       = (some 0, true)) ∧
    (sampleTwoSeedRun.e.seeds = [0, 1] ∧
     ((seedPass sampleStepDriver sampleLateClock [0, 1]
        { sampleTwoSeedRun with t := 2 }).h.cell 0).LastChecked = 302 ∧
     (seedPass sampleStepDriver sampleLateClock [0, 1]
        { sampleTwoSeedRun with t := 2 }).polled = 2 ∧
     (seedPass sampleStepDriver sampleLateClock [0, 1]
        { sampleTwoSeedRun with t := 2 }).succeeded = 1 ∧
     (seedPass sampleStepDriver sampleLateClock [0, 1]
        { sampleTwoSeedRun with t := 2 }).e.IsInCensus
        (seedPass sampleStepDriver sampleLateClock [0, 1]
          { sampleTwoSeedRun with t := 2 }).h 0 = true ∧
     (306 : Time) ≤ 302 + 15 ∧
     (checkSeeds sampleStepDriver sampleLateClock 15 3 sampleTwoSeedRun).map
        (fun s => ((s.h.cell 0).LastChecked, s.polled, s.succeeded))
       = some (306, 4, 3)) :=
  ⟨⟨by decide, by decide, by decide⟩,
   ⟨rfl, by decide, by decide, by decide, by decide, by decide, by decide⟩⟩

/-- C18 (amended): after a poll of `n` that ends in full success at time `now`
and stamps `LastChecked = now`, `pickNode` does not return `n` as long as every
clock reading of the scan is at most `now + interval`: neither on the registry
as the poll left it, nor in any later state in which `n.LastChecked` is still
`now` and the interval is unchanged. -/
theorem pickNode_after_success (drv : Driver) (now : Time) (h : Heap) (e : Enumerator)
    (n : Nat) (v : Int) (c : Bool) (P : List String) (clock : Nat → Time)
    (hn : n < h.next)
    (hinfo : drv.GetInfo = .ok v)
    (hconn : drv.IsConnectedTo (h.cell n).Address = .ok c)
    (hadd : c = false → drv.AddNode (h.cell n).Address = none)
    (haddrs : drv.Addrs = .ok P)
    (hclock : ∀ i : Nat, clock i ≤ now + e.interval) :
    ((checkNode drv now h e n).2.1.cell n).LastChecked = now ∧
    ((checkNode drv now h e n).2.2.pickNode (checkNode drv now h e n).2.1 clock).1
      ≠ (some n, true) ∧
    (∀ (h1 : Heap) (e1 : Enumerator),
      (h1.cell n).LastChecked = now → e1.interval = e.interval →
      (e1.pickNode h1 clock).1 ≠ (some n, true)) := by
  have hlc : ((checkNode drv now h e n).2.1.cell n).LastChecked = now := by
    rw [(checkNode_success_heap drv now h e n v c P hn hinfo hconn hadd haddrs).1]
    rfl
  refine ⟨hlc, ?_, ?_⟩
  · apply pickNode_skips_fresh
    intro i
    rw [hlc, checkNode_success_interval drv now h e n v c P hinfo hconn hadd haddrs]
    exact hclock i
  · intro h1 e1 h1lc h1int
    apply pickNode_skips_fresh
    intro i
    rw [h1lc, h1int]
    exact hclock i

theorem pickNode_after_success_witness :
    0 < sampleHeap.next ∧
    (515 : Time) ≤ 500 + sampleEnum.interval ∧
    (((checkNode sampleDriver 500 sampleHeap sampleEnum 0).2.1.cell 0).LastChecked = 500 ∧
     ((checkNode sampleDriver 500 sampleHeap sampleEnum 0).2.2.pickNode
       (checkNode sampleDriver 500 sampleHeap sampleEnum 0).2.1 (fun _ => 515)).1
       ≠ (some 0, true)) ∧
    (sampleEnum2.pickNode (sampleHeap.write 0 ((sampleHeap.cell 0).setPolled [] 500))
      (fun _ => 515)).1 ≠ (some 0, true) :=
  ⟨by decide, by decide,
   ⟨(pickNode_after_success sampleDriver 500 sampleHeap sampleEnum 0 120000 false
      ["10.0.0.2:18555", "10.0.0.3:18555"] (fun _ => 515) (by decide) rfl rfl (fun _ => rfl) rfl
      (fun _ => show (515 : Time) ≤ 500 + sampleEnum.interval by decide)).1,
    (pickNode_after_success sampleDriver 500 sampleHeap sampleEnum 0 120000 false
      ["10.0.0.2:18555", "10.0.0.3:18555"] (fun _ => 515) (by decide) rfl rfl (fun _ => rfl) rfl
      (fun _ => show (515 : Time) ≤ 500 + sampleEnum.interval by decide)).2.1⟩,
   (pickNode_after_success sampleDriver 500 sampleHeap sampleEnum 0 120000 false
      ["10.0.0.2:18555", "10.0.0.3:18555"] (fun _ => 515) (by decide) rfl rfl (fun _ => rfl) rfl
      (fun _ => show (515 : Time) ≤ 500 + sampleEnum.interval by decide)).2.2
     (sampleHeap.write 0 ((sampleHeap.cell 0).setPolled [] 500)) sampleEnum2
     (by decide) (by decide)⟩


/-! ## Coordination routine -/

/-- The launch loop while every construction from `i` up to `stop` succeeds:
it appends the workers `i, ..., stop - 1` and goes on from `stop`. -/
theorem launchLoop_ok (maxWorkers : Int) (newSoterd : Nat → Option Error) :
    ∀ (d fuel i : Nat) (s : Launch),
      (∀ j : Nat, i ≤ j → j < i + d → newSoterd j = none ∧ (j : Int) < maxWorkers) →
      launchLoop maxWorkers newSoterd (d + fuel) i s =
        launchLoop maxWorkers newSoterd fuel (i + d)
          { workers := s.workers ++ (List.range' i d).map Worker.mk,
            err := if d = 0 then s.err else none,
            attempts := s.attempts + d, wgAdds := s.wgAdds + d,
            spawned := s.spawned ++ List.range' i d } := by
  intro d
  induction d with
  | zero => intro fuel i s _; simp
  | succ d ih =>
    intro fuel i s hok
    obtain ⟨hnone, hlt⟩ := hok i (Nat.le_refl i) (by omega)
    rw [show d + 1 + fuel = (d + fuel) + 1 by omega]
    simp only [launchLoop, hlt, if_true, NewWorker, hnone]
    rw [ih fuel (i + 1) _ (fun j hj1 hj2 => hok j (by omega) (by omega))]
    have hidx : i + 1 + d = i + (d + 1) := by omega
    rw [hidx]
    congr 1
    simp [List.range'_succ, Nat.add_assoc, Nat.add_comm 1 d]

/-- C20: when every construction succeeds the coordination routine starts
exactly the workers `0, ..., maxWorkers - 1` (none when `maxWorkers <= 0`); and
when the construction with index `i` is the first to fail, exactly the workers
`0, ..., i - 1` were started, `NewWorker` was called `i + 1` times, the `quit`
channel of each started worker is closed exactly once, no notification is
relayed and the routine returns. -/
theorem enumeration_spec (maxWorkers : Int) (newSoterd : Nat → Option Error)
    (events : List Event) :
    ((∀ j : Nat, (j : Int) < maxWorkers → newSoterd j = none) →
      (enumeration maxWorkers newSoterd events).launch.spawned = List.range maxWorkers.toNat ∧
      (enumeration maxWorkers newSoterd events).launch.spawned.length = maxWorkers.toNat ∧
      (enumeration maxWorkers newSoterd events).launch.wgAdds = maxWorkers.toNat ∧
      (maxWorkers ≤ 0 → (enumeration maxWorkers newSoterd events).launch.spawned = [])) ∧
    (∀ (i : Nat) (err : Error), (i : Int) < maxWorkers → newSoterd i = some err →
      (∀ j : Nat, j < i → newSoterd j = none) →
      (enumeration maxWorkers newSoterd events).launch.spawned = List.range i ∧
      (enumeration maxWorkers newSoterd events).launch.attempts = i + 1 ∧
      (enumeration maxWorkers newSoterd events).closed = List.range i ∧
      (∀ w : Nat, w < i → (enumeration maxWorkers newSoterd events).closed.count w = 1) ∧
      (enumeration maxWorkers newSoterd events).relayed = [] ∧
      (enumeration maxWorkers newSoterd events).returned = true) := by
  constructor
  · intro hall
    have hrun := launchLoop_ok maxWorkers newSoterd maxWorkers.toNat 0 0
      { workers := [], err := none, attempts := 0, wgAdds := 0, spawned := [] }
      (fun j _ hj => by
        have hlt : (j : Int) < maxWorkers := by omega
        exact ⟨hall j hlt, hlt⟩)
    simp only [Nat.add_zero, Nat.zero_add, launchLoop, List.nil_append] at hrun
    have hsp : (enumeration maxWorkers newSoterd events).launch.spawned
        = List.range maxWorkers.toNat := by
      simp only [enumeration, hrun]
      split <;> simp [List.range_eq_range']
    have hwg : (enumeration maxWorkers newSoterd events).launch.wgAdds = maxWorkers.toNat := by
      simp only [enumeration, hrun]
      split <;> simp
    refine ⟨hsp, by rw [hsp, List.length_range], hwg, ?_⟩
    intro hle
    rw [hsp, Int.toNat_of_nonpos hle]
    rfl
  · intro i err hlt herr hbefore
    have hfuel : maxWorkers.toNat = i + (maxWorkers.toNat - i - 1 + 1) := by omega
    have hrun := launchLoop_ok maxWorkers newSoterd i (maxWorkers.toNat - i - 1 + 1) 0
      { workers := [], err := none, attempts := 0, wgAdds := 0, spawned := [] }
      (fun j _ hj => by
        have hji : j < i := by omega
        exact ⟨hbefore j hji, by omega⟩)
    rw [← hfuel] at hrun
    simp only [Nat.zero_add, launchLoop, hlt, if_true, NewWorker, herr, List.nil_append]
      at hrun
    have hcl : (enumeration maxWorkers newSoterd events).closed = List.range i := by
      simp [enumeration, hrun, List.range_eq_range', Function.comp_def]
    refine ⟨?_, ?_, hcl, ?_, ?_, ?_⟩
    · simp [enumeration, hrun, List.range_eq_range']
    · simp [enumeration, hrun]
    · intro w hw
      rw [hcl]
      exact List.count_eq_one_of_mem (List.nodup_range i) (List.mem_range.mpr hw)
    · simp [enumeration, hrun]
    · simp [enumeration, hrun]

theorem enumeration_spec_witness :
    ((enumeration 3 (fun _ => none) [Event.notification "worker 1 up"]).launch.spawned
        = List.range 3 ∧
     (enumeration 3 (fun _ => none) [Event.notification "worker 1 up"]).launch.spawned.length
        = 3 ∧
     (enumeration 3 (fun _ => none) [Event.notification "worker 1 up"]).launch.wgAdds = 3) ∧
    ((enumeration 4 sampleThirdFails [Event.quit]).launch.spawned = List.range 2 ∧
     (enumeration 4 sampleThirdFails [Event.quit]).launch.attempts = 2 + 1 ∧
     (enumeration 4 sampleThirdFails [Event.quit]).closed = List.range 2 ∧
     (enumeration 4 sampleThirdFails [Event.quit]).relayed = [] ∧
     (enumeration 4 sampleThirdFails [Event.quit]).returned = true) :=
  ⟨have hA := (enumeration_spec 3 (fun _ => none) [Event.notification "worker 1 up"]).1
      (fun _ _ => rfl)
   ⟨hA.1, hA.2.1, hA.2.2.1⟩,
   have hB := (enumeration_spec 4 sampleThirdFails [Event.quit]).2 2 "rpctest: no free port"
      (by decide) rfl (fun j hj => by
        have hne : j ≠ 2 := Nat.ne_of_lt hj
        simp [sampleThirdFails, hne])
   ⟨hB.1, hB.2.1, hB.2.2.1, hB.2.2.2.2.1, hB.2.2.2.2.2⟩⟩



/-! ## Start and Stop -/

/-- Adding one to a wrapped counter is wrapping the exact count plus one. -/
theorem wrapInt32_succ (c : Nat) :
    addInt32 (wrapInt32 c) 1 = wrapInt32 ((c + 1 : Nat) : Int) := by
  simp only [addInt32, wrapInt32, Nat.cast_add, Nat.cast_one]
  omega

/-- The wrapped count is `1` exactly at the counts `1, 2^32 + 1, ...`. -/
theorem wrapInt32_succ_eq_one (c : Nat) :
    wrapInt32 ((c + 1 : Nat) : Int) = 1 ↔ c % 4294967296 = 0 := by
  simp only [wrapInt32, Nat.cast_add, Nat.cast_one]
  omega

/-- The number of counts `1, 2^32 + 1, ...` up to `c + 1`, when `c + 1` is one of them. -/
theorem launches_succ_hit (c : Nat) (hc : c % 4294967296 = 0) :
    (c + 1 + 4294967295) / 4294967296 = (c + 4294967295) / 4294967296 + 1 := by
  omega

/-- The number of counts `1, 2^32 + 1, ...` up to `c + 1`, when `c + 1` is none of them. -/
theorem launches_succ_miss (c : Nat) (hc : c % 4294967296 ≠ 0) :
    (c + 1 + 4294967295) / 4294967296 = (c + 4294967295) / 4294967296 := by
  omega

/-- Below `2^32` calls there is at most one launch. -/
theorem launches_le_one (c : Nat) (hc : c ≤ 4294967296) :
    (c + 4294967295) / 4294967296 ≤ 1 := by
  omega

/-- No launch without a call. -/
theorem launches_eq_zero (c : Nat) :
    (c + 4294967295) / 4294967296 = 0 ↔ c = 0 := by
  omega

/-- The state after any sequence of calls from a new enumerator, in terms of
the number of `Start` and `Stop` calls made. -/
theorem lifecycle_run_counts (seeds : List Ptr) (interval : Duration) (workers : Int) :
    ∀ calls : List Call,
      ((Lifecycle.init (New seeds interval workers)).run calls).e.started
        = wrapInt32 (calls.count Call.start) ∧
      ((Lifecycle.init (New seeds interval workers)).run calls).e.shutdown
        = wrapInt32 (calls.count Call.stop) ∧
      ((Lifecycle.init (New seeds interval workers)).run calls).launched
        = (calls.count Call.start + 4294967295) / 4294967296 ∧
      ((Lifecycle.init (New seeds interval workers)).run calls).quitClosed
        = (calls.count Call.stop + 4294967295) / 4294967296 ∧
      (calls.count Call.start = 0 →
        ((Lifecycle.init (New seeds interval workers)).run calls).wg = 0) := by
  intro calls
  induction calls using List.reverseRecOn with
  | nil =>
    simp [Lifecycle.run, Lifecycle.init, New, wrapInt32]
  | append_singleton cs c ih =>
    obtain ⟨h1, h2, h3, h4, h5⟩ := ih
    have hrun : (Lifecycle.init (New seeds interval workers)).run (cs ++ [c])
        = ((Lifecycle.init (New seeds interval workers)).run cs).step c := by
      simp [Lifecycle.run, List.foldl_append]
    rw [hrun]
    generalize (Lifecycle.init (New seeds interval workers)).run cs = s at h1 h2 h3 h4 h5
    cases c with
    | start =>
      have hc : (cs ++ [Call.start]).count Call.start = cs.count Call.start + 1 := by
        simp
      have hd : (cs ++ [Call.start]).count Call.stop = cs.count Call.stop := by
        simp
      rw [hc, hd]
      have hst : s.addStarted.e.started = wrapInt32 ((cs.count Call.start + 1 : Nat) : Int) := by
        show addInt32 s.e.started 1 = _
        rw [h1]
        exact wrapInt32_succ (cs.count Call.start)
      by_cases hmod : cs.count Call.start % 4294967296 = 0
      · have hone : s.addStarted.e.started = 1 := by
          rw [hst]
          exact (wrapInt32_succ_eq_one _).mpr hmod
        have hstep : s.step Call.start =
            { s.addStarted with wg := s.addStarted.wg + 1,
                                launched := s.addStarted.launched + 1 } := by
          simp [Lifecycle.step, Lifecycle.Start, hone]
        rw [hstep]
        refine ⟨hst, h2, ?_, h4, ?_⟩
        · show s.launched + 1 = _
          rw [h3, launches_succ_hit _ hmod]
        · intro hzero
          exact absurd hzero (Nat.succ_ne_zero _)
      · have hone : s.addStarted.e.started ≠ 1 := by
          rw [hst]
          exact fun h => hmod ((wrapInt32_succ_eq_one _).mp h)
        have hstep : s.step Call.start = s.addStarted := by
          simp [Lifecycle.step, Lifecycle.Start, hone]
        rw [hstep]
        refine ⟨hst, h2, ?_, h4, ?_⟩
        · show s.launched = _
          rw [h3, launches_succ_miss _ hmod]
        · intro hzero
          exact absurd hzero (Nat.succ_ne_zero _)
    | stop =>
      have hc : (cs ++ [Call.stop]).count Call.start = cs.count Call.start := by
        simp
      have hd : (cs ++ [Call.stop]).count Call.stop = cs.count Call.stop + 1 := by
        simp
      rw [hc, hd]
      have hst : s.addShutdown.e.shutdown = wrapInt32 ((cs.count Call.stop + 1 : Nat) : Int) := by
        show addInt32 s.e.shutdown 1 = _
        rw [h2]
        exact wrapInt32_succ (cs.count Call.stop)
      by_cases hmod : cs.count Call.stop % 4294967296 = 0
      · have hone : s.addShutdown.e.shutdown = 1 := by
          rw [hst]
          exact (wrapInt32_succ_eq_one _).mpr hmod
        have hstep : s.step Call.stop =
            { s.addShutdown with quitClosed := s.addShutdown.quitClosed + 1 } := by
          simp [Lifecycle.step, Lifecycle.Stop, hone]
        rw [hstep]
        refine ⟨h1, hst, h3, ?_, h5⟩
        show s.quitClosed + 1 = _
        rw [h4, launches_succ_hit _ hmod]
      · have hone : s.addShutdown.e.shutdown ≠ 1 := by
          rw [hst]
          exact fun h => hmod ((wrapInt32_succ_eq_one _).mp h)
        have hstep : s.step Call.stop = s.addShutdown := by
          simp [Lifecycle.step, Lifecycle.Stop, hone]
        rw [hstep]
        refine ⟨h1, hst, h3, ?_, h5⟩
        show s.quitClosed = _
        rw [h4, launches_succ_miss _ hmod]
    | background delta =>
      have hc : (cs ++ [Call.background delta]).count Call.start = cs.count Call.start := by
        simp
      have hd : (cs ++ [Call.background delta]).count Call.stop = cs.count Call.stop := by
        simp
      rw [hc, hd]
      by_cases hl : s.launched = 0
      · have hstep : s.step (Call.background delta) = s := by
          simp [Lifecycle.step, hl]
        rw [hstep]
        exact ⟨h1, h2, h3, h4, h5⟩
      · have hstep : s.step (Call.background delta) = { s with wg := s.wg + delta } := by
          simp [Lifecycle.step, hl]
        rw [hstep]
        refine ⟨h1, h2, h3, h4, ?_⟩
        intro hzero
        exact absurd (by rw [h3]; exact (launches_eq_zero _).mpr hzero) hl


/-- C15 fails as stated: the guard is an `int32` that wraps around, so after
`2^32` calls of `Start` it is back at `0` and the next call launches the
coordination routine a second time. -/
theorem start_relaunches_after_wrap :
    ((Lifecycle.init (New [] 15 1)).run (List.replicate 4294967297 Call.start)).launched = 2 := by
  have hcount := (lifecycle_run_counts [] 15 1 (List.replicate 4294967297 Call.start)).2.2.1
  rw [List.count_replicate_self] at hcount
  rw [hcount]

/-- C15 (amended): for every sequence of calls with fewer than `2^32` calls of
`Start` and fewer than `2^32` calls of `Stop`, the coordination routine has been
launched at most once and `quit` closed at most once, also after one more
`Start` or `Stop`; a `Start` after the first changes nothing but the guard
`started`, a `Stop` after the first changes nothing but the guard `shutdown`
and does not block; and a `Stop` on an enumerator that was never started finds
the wait group at zero and does not block. -/
theorem start_stop_guards (seeds : List Ptr) (interval : Duration) (workers : Int)
    (calls : List Call)
    (hS : calls.count Call.start < 4294967296)
    (hT : calls.count Call.stop < 4294967296) :
    ((Lifecycle.init (New seeds interval workers)).run calls).launched ≤ 1 ∧
    ((Lifecycle.init (New seeds interval workers)).run calls).quitClosed ≤ 1 ∧
    ((Lifecycle.init (New seeds interval workers)).run calls).Start.launched ≤ 1 ∧
    ((Lifecycle.init (New seeds interval workers)).run calls).Stop.1.quitClosed ≤ 1 ∧
    (1 ≤ calls.count Call.start →
      ((Lifecycle.init (New seeds interval workers)).run calls).Start
        = ((Lifecycle.init (New seeds interval workers)).run calls).addStarted) ∧
    (1 ≤ calls.count Call.stop →
      ((Lifecycle.init (New seeds interval workers)).run calls).Stop
        = (((Lifecycle.init (New seeds interval workers)).run calls).addShutdown, false)) ∧
    (calls.count Call.start = 0 →
      ((Lifecycle.init (New seeds interval workers)).run calls).wg = 0 ∧
      ((Lifecycle.init (New seeds interval workers)).run calls).Stop.2 = false) := by
  obtain ⟨h1, h2, h3, h4, h5⟩ := lifecycle_run_counts seeds interval workers calls
  generalize (Lifecycle.init (New seeds interval workers)).run calls = s at h1 h2 h3 h4 h5
  have hst : s.addStarted.e.started = wrapInt32 ((calls.count Call.start + 1 : Nat) : Int) := by
    show addInt32 s.e.started 1 = _
    rw [h1]
    exact wrapInt32_succ _
  have hsh : s.addShutdown.e.shutdown = wrapInt32 ((calls.count Call.stop + 1 : Nat) : Int) := by
    show addInt32 s.e.shutdown 1 = _
    rw [h2]
    exact wrapInt32_succ _
  have hl1 : s.launched ≤ 1 := by
    rw [h3]
    exact launches_le_one _ (Nat.le_of_lt hS)
  have hq1 : s.quitClosed ≤ 1 := by
    rw [h4]
    exact launches_le_one _ (Nat.le_of_lt hT)
  refine ⟨hl1, hq1, ?_, ?_, ?_, ?_, ?_⟩
  · by_cases hmod : calls.count Call.start % 4294967296 = 0
    · have hone : s.addStarted.e.started = 1 := by
        rw [hst]
        exact (wrapInt32_succ_eq_one _).mpr hmod
      have hstep : s.Start = { s.addStarted with wg := s.addStarted.wg + 1,
                                                 launched := s.addStarted.launched + 1 } := by
        simp [Lifecycle.Start, hone]
      rw [hstep]
      show s.launched + 1 ≤ 1
      rw [h3, ← launches_succ_hit _ hmod]
      exact launches_le_one _ hS
    · have hone : s.addStarted.e.started ≠ 1 := by
        rw [hst]
        exact fun h => hmod ((wrapInt32_succ_eq_one _).mp h)
      have hstep : s.Start = s.addStarted := by
        simp [Lifecycle.Start, hone]
      rw [hstep]
      exact hl1
  · by_cases hmod : calls.count Call.stop % 4294967296 = 0
    · have hone : s.addShutdown.e.shutdown = 1 := by
        rw [hsh]
        exact (wrapInt32_succ_eq_one _).mpr hmod
      have hstep : s.Stop.1 = { s.addShutdown with
          quitClosed := s.addShutdown.quitClosed + 1 } := by
        simp [Lifecycle.Stop, hone]
      rw [hstep]
      show s.quitClosed + 1 ≤ 1
      rw [h4, ← launches_succ_hit _ hmod]
      exact launches_le_one _ hT
    · have hone : s.addShutdown.e.shutdown ≠ 1 := by
        rw [hsh]
        exact fun h => hmod ((wrapInt32_succ_eq_one _).mp h)
      have hstep : s.Stop.1 = s.addShutdown := by
        simp [Lifecycle.Stop, hone]
      rw [hstep]
      exact hq1
  · intro hge
    have hmod : calls.count Call.start % 4294967296 ≠ 0 := by
      rw [Nat.mod_eq_of_lt hS]
      exact Nat.pos_iff_ne_zero.mp hge
    have hone : s.addStarted.e.started ≠ 1 := by
      rw [hst]
      exact fun h => hmod ((wrapInt32_succ_eq_one _).mp h)
    simp [Lifecycle.Start, hone]
  · intro hge
    have hmod : calls.count Call.stop % 4294967296 ≠ 0 := by
      rw [Nat.mod_eq_of_lt hT]
      exact Nat.pos_iff_ne_zero.mp hge
    have hone : s.addShutdown.e.shutdown ≠ 1 := by
      rw [hsh]
      exact fun h => hmod ((wrapInt32_succ_eq_one _).mp h)
    simp [Lifecycle.Stop, hone]
  · intro hzero
    have hwg : s.wg = 0 := h5 hzero
    have hw : s.addShutdown.wg = 0 := hwg
    refine ⟨hwg, ?_⟩
    by_cases hone : s.addShutdown.e.shutdown = 1
    · simp [Lifecycle.Stop, hone, hw]
    · simp [Lifecycle.Stop, hone]

theorem start_stop_guards_witness :
    [Call.stop, Call.start, Call.start, Call.stop].count Call.start < 4294967296 ∧
    [Call.stop, Call.start, Call.start, Call.stop].count Call.stop < 4294967296 ∧
    (((Lifecycle.init (New [0] 15 1)).run
        [Call.stop, Call.start, Call.start, Call.stop]).launched ≤ 1 ∧
     ((Lifecycle.init (New [0] 15 1)).run
        [Call.stop, Call.start, Call.start, Call.stop]).quitClosed ≤ 1 ∧
     ((Lifecycle.init (New [0] 15 1)).run
        [Call.stop, Call.start, Call.start, Call.stop]).Start.launched ≤ 1 ∧
     ((Lifecycle.init (New [0] 15 1)).run
        [Call.stop, Call.start, Call.start, Call.stop]).Stop.1.quitClosed ≤ 1 ∧
     (1 ≤ [Call.stop, Call.start, Call.start, Call.stop].count Call.start →
       ((Lifecycle.init (New [0] 15 1)).run
          [Call.stop, Call.start, Call.start, Call.stop]).Start
        = ((Lifecycle.init (New [0] 15 1)).run
          [Call.stop, Call.start, Call.start, Call.stop]).addStarted) ∧
     (1 ≤ [Call.stop, Call.start, Call.start, Call.stop].count Call.stop →
       ((Lifecycle.init (New [0] 15 1)).run
          [Call.stop, Call.start, Call.start, Call.stop]).Stop
        = (((Lifecycle.init (New [0] 15 1)).run
          [Call.stop, Call.start, Call.start, Call.stop]).addShutdown, false)) ∧
     ([Call.stop, Call.start, Call.start, Call.stop].count Call.start = 0 →
       ((Lifecycle.init (New [0] 15 1)).run
          [Call.stop, Call.start, Call.start, Call.stop]).wg = 0 ∧
       ((Lifecycle.init (New [0] 15 1)).run
          [Call.stop, Call.start, Call.start, Call.stop]).Stop.2 = false)) :=
  ⟨by decide, by decide,
   start_stop_guards [0] 15 1 [Call.stop, Call.start, Call.start, Call.stop]
     (by decide) (by decide)⟩


/-! ## What one poll can change -/

/-- A list-peers failure, as an equation: the version write, the offline write
and the lease release on `n`, nothing else. -/
theorem checkNode_of_addrs_error_eq (drv : Driver) (now : Time) (h : Heap) (e : Enumerator)
    (n : Ptr) (v : Int) (c : Bool) (err : Error) (hinfo : drv.GetInfo = .ok v)
    (hconn : drv.IsConnectedTo (h.cell n).Address = .ok c)
    (hadd : c = false → drv.AddNode (h.cell n).Address = none)
    (haddrs : drv.Addrs = .error err) :
    checkNode drv now h e n =
      (some err,
       ((h.write n ((h.cell n).setVersion (sprintfD v))).write n
         (((h.write n ((h.cell n).setVersion (sprintfD v))).cell n).setOnline false)).write n
         ((((h.write n ((h.cell n).setVersion (sprintfD v))).write n
           (((h.write n ((h.cell n).setVersion (sprintfD v))).cell n).setOnline false)).cell
             n).free), e) := by
  have haddr : ((h.write n ((h.cell n).setVersion (sprintfD v))).cell n).Address
      = (h.cell n).Address := by
    simp [Heap.write, Node.setVersion]
  have hstep : (if !c then drv.AddNode (h.cell n).Address else none) = none := by
    cases c with
    | false => simpa using hadd rfl
    | true => rfl
  have hbody : checkNodeBody drv now h e n =
      (some err, (h.write n ((h.cell n).setVersion (sprintfD v))).write n
        (((h.write n ((h.cell n).setVersion (sprintfD v))).cell n).setOnline false), e) := by
    simp only [checkNodeBody, hinfo, haddr, hconn, hstep, haddrs]
  simp only [checkNode, hbody]

/-- An `Except` value is an error or a result. -/
theorem except_cases {α : Type} (x : Except Error α) :
    (∃ err : Error, x = .error err) ∨ (∃ a : α, x = .ok a) := by
  cases x with
  | error err => exact Or.inl ⟨err, rfl⟩
  | ok a => exact Or.inr ⟨a, rfl⟩

/-- Every run of `checkNode` either fails, and then it has changed nothing but
`Version`, `Online` and the lease of `n`, or all its driver calls succeeded and
it returns no error. -/
theorem checkNode_outcome (drv : Driver) (now : Time) (h : Heap) (e : Enumerator) (n : Ptr) :
    ((checkNode drv now h e n).1 ≠ none ∧
      (checkNode drv now h e n).2.2 = e ∧
      (checkNode drv now h e n).2.1.next = h.next ∧
      (∀ q : Ptr, q ≠ n → (checkNode drv now h e n).2.1.cell q = h.cell q) ∧
      ((checkNode drv now h e n).2.1.cell n).LastChecked = (h.cell n).LastChecked ∧
      ((checkNode drv now h e n).2.1.cell n).Address = (h.cell n).Address) ∨
    (∃ (v : Int) (c : Bool) (P : List String),
      drv.GetInfo = .ok v ∧
      drv.IsConnectedTo (h.cell n).Address = .ok c ∧
      (c = false → drv.AddNode (h.cell n).Address = none) ∧
      drv.Addrs = .ok P ∧
      (checkNode drv now h e n).1 = none) := by
  rcases except_cases drv.GetInfo with ⟨err, hinfo⟩ | ⟨v, hinfo⟩
  · left
    rw [checkNode_of_liveness_error drv now h e n err hinfo]
    refine ⟨by simp, rfl, rfl, ?_, ?_, ?_⟩
    · intro q hq
      simp [Heap.write, Function.update_noteq hq]
    · simp [Heap.write, Node.setOnline, Node.free]
    · simp [Heap.write, Node.setOnline, Node.free]
  · have hconnfail : ∀ err : Error,
        (drv.IsConnectedTo (h.cell n).Address = .error err ∨
          (drv.IsConnectedTo (h.cell n).Address = .ok false ∧
           drv.AddNode (h.cell n).Address = some err)) →
        ((checkNode drv now h e n).1 ≠ none ∧
          (checkNode drv now h e n).2.2 = e ∧
          (checkNode drv now h e n).2.1.next = h.next ∧
          (∀ q : Ptr, q ≠ n → (checkNode drv now h e n).2.1.cell q = h.cell q) ∧
          ((checkNode drv now h e n).2.1.cell n).LastChecked = (h.cell n).LastChecked ∧
          ((checkNode drv now h e n).2.1.cell n).Address = (h.cell n).Address) := by
      intro err hfail
      rw [checkNode_of_connect_error drv now h e n v err hinfo hfail]
      refine ⟨by simp, rfl, rfl, ?_, ?_, ?_⟩
      · intro q hq
        simp [Heap.write, Function.update_noteq hq]
      · simp [Heap.write, Node.setVersion, Node.free]
      · simp [Heap.write, Node.setVersion, Node.free]
    rcases except_cases (drv.IsConnectedTo (h.cell n).Address) with ⟨err, hconn⟩ | ⟨c, hconn⟩
    · exact Or.inl (hconnfail err (Or.inl hconn))
    · have hrest : (c = false → drv.AddNode (h.cell n).Address = none) →
          ((checkNode drv now h e n).1 ≠ none ∧
            (checkNode drv now h e n).2.2 = e ∧
            (checkNode drv now h e n).2.1.next = h.next ∧
            (∀ q : Ptr, q ≠ n → (checkNode drv now h e n).2.1.cell q = h.cell q) ∧
            ((checkNode drv now h e n).2.1.cell n).LastChecked = (h.cell n).LastChecked ∧
            ((checkNode drv now h e n).2.1.cell n).Address = (h.cell n).Address) ∨
          (∃ (v : Int) (c : Bool) (P : List String),
            drv.GetInfo = .ok v ∧
            drv.IsConnectedTo (h.cell n).Address = .ok c ∧
            (c = false → drv.AddNode (h.cell n).Address = none) ∧
            drv.Addrs = .ok P ∧
            (checkNode drv now h e n).1 = none) := by
        intro hadd
        rcases except_cases drv.Addrs with ⟨err, haddrs⟩ | ⟨P, haddrs⟩
        · left
          rw [checkNode_of_addrs_error_eq drv now h e n v c err hinfo hconn hadd haddrs]
          refine ⟨by simp, rfl, rfl, ?_, ?_, ?_⟩
          · intro q hq
            simp [Heap.write, Function.update_noteq hq]
          · simp [Heap.write, Node.setVersion, Node.setOnline, Node.free]
          · simp [Heap.write, Node.setVersion, Node.setOnline, Node.free]
        · right
          refine ⟨v, c, P, hinfo, hconn, hadd, haddrs, ?_⟩
          rw [checkNode_of_success drv now h e n v c P hinfo hconn hadd haddrs _ rfl]
      by_cases hc : c = false
      · have hopt : drv.AddNode (h.cell n).Address = none ∨
            ∃ err : Error, drv.AddNode (h.cell n).Address = some err := by
          cases drv.AddNode (h.cell n).Address with
          | none => exact Or.inl rfl
          | some err => exact Or.inr ⟨err, rfl⟩
        rcases hopt with hnone | ⟨err, hsome⟩
        · exact hrest (fun _ => hnone)
        · exact Or.inl (hconnfail err (Or.inr ⟨by rw [hconn, hc], hsome⟩))
      · exact hrest (fun hc2 => absurd hc2 hc)

/-- `checkNode` never changes the seed list or the interval. -/
theorem checkNode_seeds (drv : Driver) (now : Time) (h : Heap) (e : Enumerator) (n : Ptr) :
    (checkNode drv now h e n).2.2.seeds = e.seeds ∧
    (checkNode drv now h e n).2.2.interval = e.interval := by
  rcases checkNode_outcome drv now h e n with ⟨_, he, _⟩ | ⟨v, c, P, hinfo, hconn, hadd, haddrs, _⟩
  · rw [he]
    exact ⟨rfl, rfl⟩
  · rw [checkNode_of_success drv now h e n v c P hinfo hconn hadd haddrs _ rfl]
    obtain ⟨f1, f2, _⟩ := addToCensus_fields
      ((addPeers P [] (h.write n ((h.cell n).setVersion (sprintfD v))) e).2.1.write n
        (((addPeers P [] (h.write n ((h.cell n).setVersion (sprintfD v))) e).2.1.cell n).setPolled
          (addPeers P [] (h.write n ((h.cell n).setVersion (sprintfD v))) e).1 now))
      (addPeers P [] (h.write n ((h.cell n).setVersion (sprintfD v))) e).2.2 n
    obtain ⟨_, _, r3, r4⟩ :=
      addPeers_registry P [] (h.write n ((h.cell n).setVersion (sprintfD v))) e
    exact ⟨by rw [f2, r4], by rw [f1, r3]⟩


/-! ## Registry frame of a poll -/

/-- C24: whatever `checkNode(n)` does, every key of the registry before the call
is still a key after it and maps to the same record; and when `checkNode`
returns an error the registry is exactly what it was. -/
theorem checkNode_registry_monotone (drv : Driver) (now : Time) (h : Heap) (e : Enumerator)
    (n : Ptr) :
    (∀ (a : String) (p : Ptr), e.nodes.lookup a = some p →
      (checkNode drv now h e n).2.2.nodes.lookup a = some p) ∧
    ((checkNode drv now h e n).1 ≠ none → (checkNode drv now h e n).2.2 = e) := by
  rcases checkNode_outcome drv now h e n with
    ⟨_, he, _⟩ | ⟨v, c, P, hinfo, hconn, hadd, haddrs, hnone⟩
  · refine ⟨?_, fun _ => he⟩
    intro a p hap
    rw [he]
    exact hap
  · refine ⟨?_, fun hne => absurd hnone hne⟩
    intro a p hap
    have hin : a ∈ e.nodes := AList.lookup_isSome.mp (by rw [hap]; rfl)
    obtain ⟨r1, r2, _, _⟩ :=
      addPeers_registry P [] (h.write n ((h.cell n).setVersion (sprintfD v))) e
    rw [checkNode_of_success drv now h e n v c P hinfo hconn hadd haddrs _ rfl]
    rw [lookup_addToCensus_of_mem _ _ n a ((r1 a).mpr (Or.inl hin)), r2 a hin]
    exact hap

theorem checkNode_registry_monotone_witness :
    sampleEnum.nodes.lookup "10.0.0.1:18555" = some 0 ∧
    (checkNode sampleSelfPeer 500 sampleHeap sampleEnum 0).2.2.nodes.lookup "10.0.0.1:18555"
      = some 0 ∧
    (checkNode samplePeerInfoDown 500 sampleHeap sampleEnum 0).2.2 = sampleEnum :=
  ⟨by decide,
   (checkNode_registry_monotone sampleSelfPeer 500 sampleHeap sampleEnum 0).1
     "10.0.0.1:18555" 0 (by decide),
   (checkNode_registry_monotone samplePeerInfoDown 500 sampleHeap sampleEnum 0).2
     (by decide)⟩

/-! ## Lookup and membership -/

/-- Every registry built from `New` by `AddToCensus` and `RemoveFromCensus`
calls is keyed by the addresses of its records. -/
theorem keyedByAddress_applyAll (h : Heap) (ops : List RegistryOp) :
    ∀ e : Enumerator, e.keyedByAddress h = true → (e.applyAll h ops).keyedByAddress h = true := by
  induction ops with
  | nil => intro e hk; exact hk
  | cons op rest ih =>
    intro e hk
    have hstep : (e.apply h op).keyedByAddress h = true := by
      cases op with
      | add n => exact keyedByAddress_addToCensus h e n hk
      | remove n => exact keyedByAddress_removeFromCensus h e n hk
    exact ih (e.apply h op) hstep

/-- C21: on every registry reached from `New` by `AddToCensus` and
`RemoveFromCensus` calls, `Get(a)` reports found exactly when `IsInCensus` holds
for a node with address `a`; when it reports found the node returned has
address `a`; and when it reports not found the node returned is `nil`. -/
theorem get_iff_isInCensus (h : Heap) (seeds : List Ptr) (interval : Duration)
    (workers : Int) (ops : List RegistryOp) (a : String) :
    (∀ n : Ptr, (h.cell n).Address = a →
      ((((New seeds interval workers).applyAll h ops).Get a).2 = true ↔
        ((New seeds interval workers).applyAll h ops).IsInCensus h n = true)) ∧
    (∀ p : Ptr, (((New seeds interval workers).applyAll h ops).Get a).1 = some p →
      (((New seeds interval workers).applyAll h ops).Get a).2 = true ∧
      (h.cell p).Address = a) ∧
    ((((New seeds interval workers).applyAll h ops).Get a).2 = true →
      ∃ p : Ptr, (((New seeds interval workers).applyAll h ops).Get a).1 = some p ∧
        (h.cell p).Address = a) ∧
    ((((New seeds interval workers).applyAll h ops).Get a).2 = false →
      (((New seeds interval workers).applyAll h ops).Get a).1 = none) := by
  have hk := keyedByAddress_applyAll h ops (New seeds interval workers)
    (keyedByAddress_new h seeds interval workers)
  generalize (New seeds interval workers).applyAll h ops = e at hk
  have hinv := (keyedByAddress_iff h e).mp hk
  have haddr : ∀ p : Ptr, e.nodes.lookup a = some p → (h.cell p).Address = a := by
    intro p hp
    exact hinv ⟨a, p⟩ (AList.mem_lookup_iff.mp hp)
  refine ⟨?_, ?_, ?_, ?_⟩
  · intro n hn
    simp only [Enumerator.Get, Enumerator.IsInCensus]
    rw [hn]
  · intro p hp
    have hp1 : e.nodes.lookup a = some p := hp
    exact ⟨by simp [Enumerator.Get, hp1], haddr p hp1⟩
  · intro hfound
    have hsome : (e.nodes.lookup a).isSome = true := hfound
    obtain ⟨p, hp⟩ := Option.isSome_iff_exists.mp hsome
    exact ⟨p, hp, haddr p hp⟩
  · intro hnot
    have hsome : (e.nodes.lookup a).isSome = false := hnot
    have hnone : e.nodes.lookup a = none := by
      cases hl : e.nodes.lookup a with
      | none => rfl
      | some p => rw [hl] at hsome; exact Bool.noConfusion hsome
    exact hnone

theorem get_iff_isInCensus_witness :
    (((New [0] 15 1).applyAll sampleHeap
        [RegistryOp.add 0, RegistryOp.add 2, RegistryOp.add 1, RegistryOp.remove 2]).Get
        "10.0.0.1:18555") = (some 0, true) ∧
    (((New [0] 15 1).applyAll sampleHeap
        [RegistryOp.add 0, RegistryOp.add 2, RegistryOp.add 1, RegistryOp.remove 2]).Get
        "10.0.0.2:18555") = (none, false) ∧
    (((New [0] 15 1).applyAll sampleHeap
        [RegistryOp.add 0, RegistryOp.add 2, RegistryOp.add 1, RegistryOp.remove 2]).Get
        "10.0.0.1:18555").2 = true ∧
    (sampleHeap.cell 0).Address = "10.0.0.1:18555" :=
  ⟨by decide, by decide,
   ((get_iff_isInCensus sampleHeap [0] 15 1
      [RegistryOp.add 0, RegistryOp.add 2, RegistryOp.add 1, RegistryOp.remove 2]
      "10.0.0.1:18555").2.1 0 (by decide)).1,
   ((get_iff_isInCensus sampleHeap [0] 15 1
      [RegistryOp.add 0, RegistryOp.add 2, RegistryOp.add 1, RegistryOp.remove 2]
      "10.0.0.1:18555").2.1 0 (by decide)).2⟩


/-! ## Driver: is the vantage point connected? -/

/-- The first loop finds a peer exactly when some peer has the address. -/
theorem exactMatch_iff (target : String) (peers : List PeerInfo) :
    exactMatch target peers = true ↔ ∃ p ∈ peers, p.Addr = target := by
  induction peers with
  | nil => simp [exactMatch]
  | cons p rest ih =>
    by_cases hp : p.Addr = target
    · simp [exactMatch, hp]
    · simp [exactMatch, hp, ih]

/-- The second loop runs to its end when no peer is inbound. -/
theorem inboundMatch_of_no_inbound (splitHostPort : String → Except Error (String × String))
    (target : String) (peers : List PeerInfo) (hout : ∀ p ∈ peers, p.Inbound = false) :
    inboundMatch splitHostPort target peers = none := by
  induction peers with
  | nil => rfl
  | cons p rest ih =>
    have hp : p.Inbound = false := hout p (List.mem_cons_self p rest)
    simp only [inboundMatch, hp, Bool.not_false, if_true]
    exact ih (fun q hq => hout q (List.mem_cons_of_mem p hq))

/-- C22: when some reported peer has exactly the address `target`, `IsConnectedTo`
returns `(true, nil)` whatever the other peers look like; and when no peer has
the address `target` and no peer is inbound, it returns `(false, nil)`. -/
theorem isConnectedTo_spec (peers : List PeerInfo)
    (splitHostPort : String → Except Error (String × String)) (target : String) :
    ((∃ p ∈ peers, p.Addr = target) →
      Soterd.IsConnectedTo (.ok peers) splitHostPort target = (true, none)) ∧
    ((∀ p ∈ peers, p.Addr ≠ target ∧ p.Inbound = false) →
      Soterd.IsConnectedTo (.ok peers) splitHostPort target = (false, none)) := by
  constructor
  · intro hex
    have hm : exactMatch target peers = true := (exactMatch_iff target peers).mpr hex
    simp [Soterd.IsConnectedTo, hm]
  · intro hall
    have hm : exactMatch target peers = false := by
      cases hx : exactMatch target peers with
      | false => rfl
      | true =>
        obtain ⟨p, hp, hpa⟩ := (exactMatch_iff target peers).mp hx
        exact absurd hpa (hall p hp).1
    have hin : inboundMatch splitHostPort target peers = none :=
      inboundMatch_of_no_inbound splitHostPort target peers (fun p hp => (hall p hp).2)
    simp [Soterd.IsConnectedTo, hm, hin]

theorem isConnectedTo_spec_witness :
    Soterd.IsConnectedTo
      (.ok [{ ID := 1, Addr := "not an address", Inbound := true },
            { ID := 2, Addr := "10.0.0.1:18555", Inbound := false }])
      sampleSplit "10.0.0.1:18555" = (true, none) ∧
    Soterd.IsConnectedTo
      (.ok [{ ID := 2, Addr := "10.0.0.1:18555", Inbound := false }])
      sampleSplit "10.0.0.1:9999" = (false, none) :=
  ⟨(isConnectedTo_spec
      [{ ID := 1, Addr := "not an address", Inbound := true },
       { ID := 2, Addr := "10.0.0.1:18555", Inbound := false }]
      sampleSplit "10.0.0.1:18555").1
      ⟨{ ID := 2, Addr := "10.0.0.1:18555", Inbound := false }, by decide, rfl⟩,
   (isConnectedTo_spec
      [{ ID := 2, Addr := "10.0.0.1:18555", Inbound := false }]
      sampleSplit "10.0.0.1:9999").2
      (by decide)⟩


/-! ## Peer maps of the dashboard -/

/-- C23 is broken by the code: for an inbound peer with ID `1` followed by an
outbound peer with ID `2`, the inbound map has the key `1`, but the pointer
stored under it is the address of the loop variable, which after the loop holds
the last peer: ID `2`, outbound. -/
theorem sortPeers_entries_alias_last_peer :
    (sortPeers samplePeers).inbound.keys = [1] ∧
    (sortPeers samplePeers).outbound.keys = [2] ∧
    (sortPeers samplePeers).inbound.lookup 1 = some loopVarAddr ∧
    (sortPeers samplePeers).outbound.lookup 2 = some loopVarAddr ∧
    (sortPeers samplePeers).deref loopVarAddr
      = some { ID := 2, Addr := "10.0.0.2:18555", Inbound := false } := by
  decide


/-! ## Seed bootstrap -/

/-- `allFresh` is true exactly when no node is stale at the clock reading of its check. -/
theorem allFresh_eq_true_iff (h : Heap) (d : Duration) (clock : Nat → Time) :
    ∀ (l : List Ptr) (k : Nat),
      allFresh h d clock l k = true ↔
        ∀ (i : Nat) (n : Ptr), l[i]? = some n → (h.cell n).IsStale d (clock (k + i)) = false := by
  intro l
  induction l with
  | nil => intro k; simp [allFresh]
  | cons m rest ih =>
    intro k
    cases hst : (h.cell m).IsStale d (clock k) with
    | true =>
      simp only [allFresh, hst, if_true]
      constructor
      · intro hf
        exact Bool.noConfusion hf
      · intro hall
        have h0 := hall 0 m (by simp)
        rw [Nat.add_zero, hst] at h0
        exact Bool.noConfusion h0
    | false =>
      simp only [allFresh, hst, Bool.false_eq_true, if_false]
      rw [ih (k + 1)]
      constructor
      · intro hall i n hi
        cases i with
        | zero =>
          simp at hi
          subst hi
          simpa using hst
        | succ j =>
          have hj := hall j n (by simpa using hi)
          rwa [show k + 1 + j = k + (j + 1) by omega] at hj
      · intro hall i n hi
        have hj := hall (i + 1) n (by simpa using hi)
        rwa [show k + (i + 1) = k + 1 + i by omega] at hj

/-- While no `LastChecked` changes and the clock does not run backwards, a seed
list that is not all fresh stays so. -/
theorem allFresh_false_persists (h h1 : Heap) (d : Duration) (clock : Nat → Time)
    (l : List Ptr) (k k1 : Nat) (hmono : Monotone clock) (hk : k ≤ k1)
    (hlc : ∀ p : Ptr, (h1.cell p).LastChecked = (h.cell p).LastChecked)
    (hfalse : allFresh h d clock l k = false) :
    allFresh h1 d clock l k1 = false := by
  cases hres : allFresh h1 d clock l k1 with
  | false => rfl
  | true =>
    have hall := (allFresh_eq_true_iff h1 d clock l k1).mp hres
    have htrue : allFresh h d clock l k = true := by
      rw [allFresh_eq_true_iff]
      intro i n hi
      have h1n := hall i n hi
      have hle : clock (k + i) ≤ clock (k1 + i) := hmono (by omega)
      simp only [Node.IsStale, Time.Before, Time.Add, decide_eq_false_iff_not, not_lt,
        hlc n] at h1n ⊢
      exact le_trans hle h1n
    rw [htrue] at hfalse
    exact Bool.noConfusion hfalse

/-- One pass over the seeds: the seed list and the counters only grow, and a
pass without a successful poll leaves every `LastChecked` as it was. -/
theorem seedPass_spec (drv : Nat → Driver) (clock : Nat → Time) :
    ∀ (seeds : List Ptr) (s : SeedRun),
      (seedPass drv clock seeds s).e.seeds = s.e.seeds ∧
      s.t ≤ (seedPass drv clock seeds s).t ∧
      s.polled ≤ (seedPass drv clock seeds s).polled ∧
      s.succeeded ≤ (seedPass drv clock seeds s).succeeded ∧
      ((seedPass drv clock seeds s).succeeded = s.succeeded →
        ∀ p : Ptr, ((seedPass drv clock seeds s).h.cell p).LastChecked
          = (s.h.cell p).LastChecked) := by
  intro seeds
  induction seeds with
  | nil => intro s; simp [seedPass]
  | cons n rest ih =>
    intro s
    have hres : ∀ p : Ptr, ((s.h.write n (s.h.cell n).reserve.2).cell p).LastChecked
        = (s.h.cell p).LastChecked := by
      intro p
      by_cases hp : p = n
      · subst hp
        simp [Heap.write, Node.reserve]
      · simp [Heap.write, Function.update_noteq hp]
    cases hr : (s.h.cell n).reserve.1 with
    | false =>
      have hunf : seedPass drv clock (n :: rest) s
          = seedPass drv clock rest { s with h := s.h.write n (s.h.cell n).reserve.2 } := by
        simp [seedPass, hr]
      rw [hunf]
      obtain ⟨i1, i2, i3, i4, i5⟩ := ih { s with h := s.h.write n (s.h.cell n).reserve.2 }
      refine ⟨i1, i2, i3, i4, ?_⟩
      intro heq p
      rw [i5 heq p]
      exact hres p
    | true =>
      have hunf : seedPass drv clock (n :: rest) s
          = seedPass drv clock rest
              { h := (checkNode (drv s.t) (clock s.t)
                  (s.h.write n (s.h.cell n).reserve.2) s.e n).2.1,
                e := (checkNode (drv s.t) (clock s.t)
                  (s.h.write n (s.h.cell n).reserve.2) s.e n).2.2,
                t := s.t + 1, polled := s.polled + 1,
                succeeded := s.succeeded +
                  (if (checkNode (drv s.t) (clock s.t)
                    (s.h.write n (s.h.cell n).reserve.2) s.e n).1.isNone then 1 else 0) } := by
        simp [seedPass, hr]
      rw [hunf]
      generalize hc : checkNode (drv s.t) (clock s.t)
        (s.h.write n (s.h.cell n).reserve.2) s.e n = c
      have hout := checkNode_outcome (drv s.t) (clock s.t)
        (s.h.write n (s.h.cell n).reserve.2) s.e n
      have hseeds := (checkNode_seeds (drv s.t) (clock s.t)
        (s.h.write n (s.h.cell n).reserve.2) s.e n).1
      rw [hc] at hout hseeds
      rcases hout with ⟨hne, _, _, hfar, hlc, _⟩ | ⟨_, _, _, _, _, _, _, hnone⟩
      · have hflag : c.1.isNone = false := by
          cases hc1 : c.1 with
          | none => exact absurd hc1 hne
          | some err => rfl
        simp only [hflag, Bool.false_eq_true, if_false, Nat.add_zero]
        obtain ⟨i1, i2, i3, i4, i5⟩ := ih
          { h := c.2.1, e := c.2.2, t := s.t + 1, polled := s.polled + 1,
            succeeded := s.succeeded }
        simp only at i1 i2 i3 i4 i5
        refine ⟨by rw [i1, hseeds], by omega, by omega, i4, ?_⟩
        intro heq p
        rw [i5 heq p]
        by_cases hp : p = n
        · subst hp
          rw [hlc]
          exact hres p
        · rw [hfar p hp]
          exact hres p
      · simp only [hnone, Option.isNone_none, if_true]
        obtain ⟨i1, i2, i3, i4, _⟩ := ih
          { h := c.2.1, e := c.2.2, t := s.t + 1, polled := s.polled + 1,
            succeeded := s.succeeded + 1 }
        simp only at i1 i2 i3 i4
        refine ⟨by rw [i1, hseeds], by omega, by omega, by omega, ?_⟩
        intro heq
        omega


/-- When `checkSeeds` returns, the seed list is the one it started with, the
counters have not decreased, and the last evaluation of the loop condition
found every seed fresh. -/
theorem checkSeeds_mono (drv : Nat → Driver) (clock : Nat → Time) (interval : Duration) :
    ∀ (fuel : Nat) (s s1 : SeedRun), checkSeeds drv clock interval fuel s = some s1 →
      s1.e.seeds = s.e.seeds ∧ s.t ≤ s1.t ∧ s.polled ≤ s1.polled ∧
      s.succeeded ≤ s1.succeeded ∧ s.e.seeds.length ≤ s1.t ∧
      allFresh s1.h interval clock s.e.seeds (s1.t - s.e.seeds.length) = true := by
  intro fuel
  induction fuel with
  | zero => intro s s1 hret; simp [checkSeeds] at hret
  | succ fuel ih =>
    intro s s1 hret
    cases hfr : allFresh s.h interval clock s.e.seeds s.t with
    | true =>
      simp only [checkSeeds, hfr, if_true, Option.some.injEq] at hret
      subst hret
      refine ⟨rfl, by simp, Nat.le_refl _, Nat.le_refl _, by simp, ?_⟩
      simpa using hfr
    | false =>
      simp only [checkSeeds, hfr, Bool.false_eq_true, if_false] at hret
      obtain ⟨p1, p2, p3, p4, _⟩ :=
        seedPass_spec drv clock s.e.seeds { s with t := s.t + s.e.seeds.length }
      obtain ⟨i1, i2, i3, i4, i5, i6⟩ := ih _ s1 hret
      simp only at p1 p2 p3 p4
      rw [p1] at i1 i5 i6
      exact ⟨i1, by omega, by omega, by omega, i5, i6⟩

/-- With a clock that does not run backwards, `checkSeeds` entered with a stale
seed returns only after a poll has succeeded. -/
theorem checkSeeds_progress (drv : Nat → Driver) (clock : Nat → Time) (interval : Duration)
    (hmono : Monotone clock) :
    ∀ (fuel : Nat) (s s1 : SeedRun), checkSeeds drv clock interval fuel s = some s1 →
      allFresh s.h interval clock s.e.seeds s.t = false →
      s.succeeded < s1.succeeded := by
  intro fuel
  induction fuel with
  | zero => intro s s1 hret; simp [checkSeeds] at hret
  | succ fuel ih =>
    intro s s1 hret hfr
    simp only [checkSeeds, hfr, Bool.false_eq_true, if_false] at hret
    obtain ⟨p1, p2, _, p4, p5⟩ :=
      seedPass_spec drv clock s.e.seeds { s with t := s.t + s.e.seeds.length }
    simp only at p1 p2 p4 p5
    obtain ⟨_, _, _, m4, _, _⟩ := checkSeeds_mono drv clock interval fuel _ s1 hret
    by_cases heq : (seedPass drv clock s.e.seeds
        { s with t := s.t + s.e.seeds.length }).succeeded = s.succeeded
    · have hstill : allFresh
          (seedPass drv clock s.e.seeds { s with t := s.t + s.e.seeds.length }).h interval clock
          (seedPass drv clock s.e.seeds { s with t := s.t + s.e.seeds.length }).e.seeds
          (seedPass drv clock s.e.seeds { s with t := s.t + s.e.seeds.length }).t = false := by
        rw [p1]
        exact allFresh_false_persists s.h _ interval clock s.e.seeds s.t _ hmono (by omega)
          (p5 heq) hfr
      have hlt := ih _ s1 hret hstill
      omega
    · omega

/-- The sample clock does not run backwards. -/
theorem sampleClock_monotone : Monotone sampleClock := by
  intro a b hab
  have hcast : (a : Int) ≤ (b : Int) := Int.ofNat_le.mpr hab
  exact add_le_add_left hcast 200

/-- C17 fails as stated: a seed that is already fresh when `checkSeeds` is
entered (`LastChecked = 100`, interval `15`, clock `110`) makes it return at
once, without any seed having been polled. -/
theorem checkSeeds_returns_unpolled :
    (checkSeeds (fun _ => sampleDriver) (fun _ => 110) 15 1 sampleSeedRun).map SeedRun.polled
      = some 0 ∧
    sampleSeedRun.e.seeds = [0] := by
  decide

/-- C17 (amended): whenever `checkSeeds` returns, every seed was fresh at the
last evaluation of the loop condition; if every seed is already fresh at the
first evaluation (in particular when there are no seeds) it does return, at once
and without polling: with any fuel left it yields the entry state, advanced only
by the clock readings of that evaluation; and if some seed was stale at the first
evaluation (clock not running backwards, no other worker acting) it does not
return before a poll of a seed has fully succeeded. -/
theorem checkSeeds_returns (drv : Nat → Driver) (clock : Nat → Time) (interval : Duration)
    (fuel : Nat) (s : SeedRun) :
    (∀ s1 : SeedRun, checkSeeds drv clock interval fuel s = some s1 →
      s.e.seeds.length ≤ s1.t ∧
      ∀ (i : Nat) (n : Ptr), s.e.seeds[i]? = some n →
        (s1.h.cell n).IsStale interval (clock (s1.t - s.e.seeds.length + i)) = false) ∧
    (allFresh s.h interval clock s.e.seeds s.t = true →
      checkSeeds drv clock interval (fuel + 1) s
        = some { s with t := s.t + s.e.seeds.length }) ∧
    (s.e.seeds = [] → checkSeeds drv clock interval (fuel + 1) s = some s) ∧
    (∀ s1 : SeedRun, checkSeeds drv clock interval fuel s = some s1 →
      Monotone clock → allFresh s.h interval clock s.e.seeds s.t = false →
      s.succeeded < s1.succeeded) := by
  refine ⟨?_, ?_, ?_, ?_⟩
  · intro s1 hret
    obtain ⟨_, _, _, _, m5, m6⟩ := checkSeeds_mono drv clock interval fuel s s1 hret
    exact ⟨m5, (allFresh_eq_true_iff _ _ _ _ _).mp m6⟩
  · intro hfr
    simp only [checkSeeds, hfr, if_true]
  · intro hnil
    have hfr : allFresh s.h interval clock s.e.seeds s.t = true := by
      rw [hnil]
      rfl
    have hst : ({ s with t := s.t + s.e.seeds.length } : SeedRun) = s := by
      rw [hnil]
      rfl
    simp only [checkSeeds, hfr, if_true, hst]
  · intro s1 hret hmono hfr
    exact checkSeeds_progress drv clock interval hmono fuel s s1 hret hfr

theorem checkSeeds_returns_witness :
    (∃ s1 : SeedRun,
      checkSeeds (fun _ => sampleDriver) sampleClock 15 2 sampleSeedRun = some s1 ∧
      allFresh sampleSeedRun.h 15 sampleClock sampleSeedRun.e.seeds sampleSeedRun.t = false ∧
      sampleSeedRun.succeeded < s1.succeeded ∧
      ∀ (i : Nat) (n : Ptr), sampleSeedRun.e.seeds[i]? = some n →
        (s1.h.cell n).IsStale 15 (sampleClock (s1.t - sampleSeedRun.e.seeds.length + i))
          = false) ∧
    (allFresh sampleSeedRun.h 15 (fun _ => 110) sampleSeedRun.e.seeds sampleSeedRun.t = true ∧
      checkSeeds (fun _ => sampleDriver) (fun _ => 110) 15 (0 + 1) sampleSeedRun
        = some { sampleSeedRun with t := sampleSeedRun.t + sampleSeedRun.e.seeds.length }) :=
  ⟨⟨(checkSeeds (fun _ => sampleDriver) sampleClock 15 2 sampleSeedRun).get (by decide),
    (Option.some_get _).symm, by decide,
    (checkSeeds_returns (fun _ => sampleDriver) sampleClock 15 2 sampleSeedRun).2.2.2 _
      (Option.some_get _).symm sampleClock_monotone (by decide),
    ((checkSeeds_returns (fun _ => sampleDriver) sampleClock 15 2 sampleSeedRun).1 _
      (Option.some_get _).symm).2⟩,
   ⟨by decide,
    (checkSeeds_returns (fun _ => sampleDriver) (fun _ => 110) 15 0 sampleSeedRun).2.1
      (by decide)⟩⟩


/-! ## Workers and leases -/

/-- `pickNode`'s scan either finds no work and leaves the heap alone, or returns
an entry that was stale and free and whose lease it has taken. -/
theorem pickNodeLoop_cases (interval : Duration) (clock : Nat → Time)
    (l : List (Sigma fun _ : String => Ptr)) (k : Nat) (h : Heap) :
    pickNodeLoop interval clock l k h = ((none, false), h) ∨
    ∃ (n : Ptr) (i : Nat) (a : String),
      (pickNodeLoop interval clock l k h).1 = (some n, true) ∧
      l[i]? = some ⟨a, n⟩ ∧
      (h.cell n).isStale interval (clock (k + i)) = true ∧
      (h.cell n).busy = Census.free ∧
      (pickNodeLoop interval clock l k h).2 = h.write n (h.cell n).reserve.2 := by
  by_cases hex : ∃ (i : Nat) (kv : Sigma fun _ : String => Ptr), l[i]? = some kv ∧
      (h.cell kv.2).isStale interval (clock (k + i)) = true ∧
      (h.cell kv.2).busy = Census.free
  · right
    have hflag := pickNodeLoop_some interval clock l k h hex
    have hpair : (pickNodeLoop interval clock l k h).1
        = ((pickNodeLoop interval clock l k h).1.1, true) := by
      rw [← hflag]
    obtain ⟨n, i, a, hr, hi, hs, hf, _, hh⟩ :=
      pickNodeLoop_sound interval clock l k h _ hpair
    refine ⟨n, i, a, ?_, hi, hs, hf, hh⟩
    rw [hpair, hr]
  · left
    apply pickNodeLoop_none
    intro i kv hi hel
    exact hex ⟨i, kv, hi, hel.1, hel.2⟩

/-- The peer loop leaves each record as it was or makes it a fresh `Node{Address: p}`. -/
theorem addPeers_cell_cases :
    ∀ (peers : List String) (conns : List Ptr) (h : Heap) (e : Enumerator) (q : Ptr),
      (addPeers peers conns h e).2.1.cell q = h.cell q ∨
      ∃ a : String, (addPeers peers conns h e).2.1.cell q = Node.ofAddress a := by
  intro peers
  induction peers with
  | nil => intro conns h e q; exact Or.inl rfl
  | cons p rest ih =>
    intro conns h e q
    have hunf : addPeers (p :: rest) conns h e =
        addPeers rest (conns ++ [h.next]) (h.alloc (Node.ofAddress p)).2
          (e.AddToCensus (h.alloc (Node.ofAddress p)).2 h.next) := rfl
    rw [hunf]
    rcases ih (conns ++ [h.next]) (h.alloc (Node.ofAddress p)).2
      (e.AddToCensus (h.alloc (Node.ofAddress p)).2 h.next) q with hsame | ⟨a, ha⟩
    · rw [hsame]
      by_cases hq : q = h.next
      · right
        exact ⟨p, by simp [Heap.alloc, hq]⟩
      · left
        simp [Heap.alloc, Function.update_noteq hq]
    · exact Or.inr ⟨a, ha⟩

/-- An entry of the registry after `AddToCensus(n)` was there before or maps to `n`. -/
theorem addToCensus_values (h : Heap) (e : Enumerator) (n : Ptr)
    (kv : Sigma fun _ : String => Ptr) (hkv : kv ∈ (e.AddToCensus h n).nodes.entries) :
    kv ∈ e.nodes.entries ∨ kv.2 = n := by
  cases hl : e.nodes.lookup (h.cell n).Address with
  | none =>
    have hnot : (h.cell n).Address ∉ e.nodes := AList.lookup_eq_none.mp hl
    have hent : (e.AddToCensus h n).nodes.entries
        = ⟨(h.cell n).Address, n⟩ :: e.nodes.entries := by
      simp only [Enumerator.AddToCensus, hl, Option.isSome_none, Bool.not_false, if_true]
      exact AList.insert_entries_of_neg hnot
    rw [hent] at hkv
    rcases List.mem_cons.mp hkv with rfl | hin
    · exact Or.inr rfl
    · exact Or.inl hin
  | some q =>
    have hsame : e.AddToCensus h n = e := by
      simp [Enumerator.AddToCensus, hl]
    rw [hsame] at hkv
    exact Or.inl hkv

/-- The peer loop keeps every registered pointer below the allocation mark. -/
theorem addPeers_values :
    ∀ (peers : List String) (conns : List Ptr) (h : Heap) (e : Enumerator),
      (∀ kv ∈ e.nodes.entries, kv.2 < h.next) →
      ∀ kv ∈ (addPeers peers conns h e).2.2.nodes.entries,
        kv.2 < (addPeers peers conns h e).2.1.next := by
  intro peers
  induction peers with
  | nil => intro conns h e hlt; exact hlt
  | cons p rest ih =>
    intro conns h e hlt
    have hunf : addPeers (p :: rest) conns h e =
        addPeers rest (conns ++ [h.next]) (h.alloc (Node.ofAddress p)).2
          (e.AddToCensus (h.alloc (Node.ofAddress p)).2 h.next) := rfl
    rw [hunf]
    apply ih
    intro kv hkv
    have hnext : (h.alloc (Node.ofAddress p)).2.next = h.next + 1 := rfl
    rw [hnext]
    rcases addToCensus_values _ e h.next kv hkv with hold | hnew
    · exact Nat.lt_succ_of_lt (hlt kv hold)
    · rw [hnew]
      exact Nat.lt_succ_self _


/-- What `checkNode` on an allocated node does to the leases, the allocation
mark, the registered pointers and the seeds. -/
theorem checkNode_pool_frame (drv : Driver) (now : Time) (h : Heap) (e : Enumerator)
    (n : Nat) (hn : n < h.next) (hvals : ∀ kv ∈ e.nodes.entries, kv.2 < h.next) :
    h.next ≤ (checkNode drv now h e n).2.1.next ∧
    ((checkNode drv now h e n).2.1.cell n).busy = Census.free ∧
    (∀ q : Nat, q ≠ n → q < h.next →
      ((checkNode drv now h e n).2.1.cell q).busy = (h.cell q).busy) ∧
    (∀ q : Nat, h.next ≤ q →
      ((checkNode drv now h e n).2.1.cell q).busy = (h.cell q).busy ∨
      ((checkNode drv now h e n).2.1.cell q).busy = Census.free) ∧
    (∀ kv ∈ (checkNode drv now h e n).2.2.nodes.entries,
      kv.2 < (checkNode drv now h e n).2.1.next) ∧
    (checkNode drv now h e n).2.2.seeds = e.seeds := by
  have hfree : ((checkNode drv now h e n).2.1.cell n).busy = Census.free := by
    simp [checkNode, Heap.write, Node.free]
  have hseeds := (checkNode_seeds drv now h e n).1
  rcases checkNode_outcome drv now h e n with
    ⟨_, he, hnext, hfar, _, _⟩ | ⟨v, c, P, hinfo, hconn, hadd, haddrs, _⟩
  · refine ⟨by rw [hnext], hfree, ?_, ?_, ?_, hseeds⟩
    · intro q hq _
      rw [hfar q hq]
    · intro q hq
      have hne : q ≠ n := Nat.ne_of_gt (Nat.lt_of_lt_of_le hn hq)
      exact Or.inl (by rw [hfar q hne])
    · intro kv hkv
      rw [he] at hkv
      rw [hnext]
      exact hvals kv hkv
  · obtain ⟨_, s2, s3, _⟩ :=
      checkNode_success_heap drv now h e n v c P hn hinfo hconn hadd haddrs
    have heq := checkNode_of_success drv now h e n v c P hinfo hconn hadd haddrs _ rfl
    have hcases := addPeers_cell_cases P [] (h.write n ((h.cell n).setVersion (sprintfD v))) e
    have hv := addPeers_values P [] (h.write n ((h.cell n).setVersion (sprintfD v))) e hvals
    obtain ⟨_, a2, _, _⟩ :=
      addPeers_spec P [] (h.write n ((h.cell n).setVersion (sprintfD v))) e
    have hnx : (h.write n ((h.cell n).setVersion (sprintfD v))).next = h.next := rfl
    rw [hnx] at a2
    generalize addPeers P [] (h.write n ((h.cell n).setVersion (sprintfD v))) e = r
      at heq hcases hv a2
    refine ⟨by rw [s2]; exact Nat.le_add_right _ _, hfree, ?_, ?_, ?_, hseeds⟩
    · intro q hq hlt
      rw [s3 q hlt hq]
    · intro q hq
      have hne : q ≠ n := Nat.ne_of_gt (Nat.lt_of_lt_of_le hn hq)
      have hcell : (checkNode drv now h e n).2.1.cell q = r.2.1.cell q := by
        rw [heq]
        simp [Heap.write, Function.update_noteq hne]
      rw [hcell]
      rcases hcases q with hsame | ⟨a, ha⟩
      · left
        rw [hsame]
        simp [Heap.write, Function.update_noteq hne]
      · right
        rw [ha]
        rfl
    · intro kv hkv
      have hnext2 : (checkNode drv now h e n).2.1.next = r.2.1.next := by
        rw [heq]
        rfl
      rw [hnext2]
      rw [heq] at hkv
      rcases addToCensus_values _ _ n kv hkv with hold | hnew
      · exact hv kv hold
      · rw [hnew, a2]
        exact Nat.lt_of_lt_of_le hn (Nat.le_add_right _ _)

/-- Taking the free lease of an allocated node keeps the lease invariant. -/
theorem inv_acquire (s : Pool) (w n : Nat) (hinv : s.Inv)
    (hfree : (s.h.cell n).busy = Census.free) (hlt : n < s.h.next) :
    Pool.Inv { s with h := s.h.write n (s.h.cell n).reserve.2, held := (w, n) :: s.held } := by
  obtain ⟨i1, i2, i3, i4, i5⟩ := hinv
  have hnot : ∀ w1 : Nat, (w1, n) ∉ s.held := by
    intro w1 hw1
    exact ((i1 n).mp ⟨w1, hw1⟩) hfree
  refine ⟨?_, ?_, ?_, i4, i5⟩
  · intro p
    by_cases hp : p = n
    · subst hp
      constructor
      · intro _
        simp [Heap.write, Node.reserve, compareAndSwap, hfree, Census.free, Census.busy]
      · intro _
        exact ⟨w, List.mem_cons_self _ _⟩
    · have hcell : (s.h.write n (s.h.cell n).reserve.2).cell p = s.h.cell p := by
        simp [Heap.write, Function.update_noteq hp]
      show (∃ w1 : Nat, (w1, p) ∈ (w, n) :: s.held) ↔
        ((s.h.write n (s.h.cell n).reserve.2).cell p).busy ≠ Census.free
      rw [hcell, ← i1 p]
      constructor
      · rintro ⟨w1, hw1⟩
        rcases List.mem_cons.mp hw1 with heq | hin
        · exact absurd (Prod.mk.inj heq).2 hp
        · exact ⟨w1, hin⟩
      · rintro ⟨w1, hw1⟩
        exact ⟨w1, List.mem_cons_of_mem _ hw1⟩
  · show ((w, n) :: s.held).map Prod.snd |>.Nodup
    rw [List.map_cons, List.nodup_cons]
    refine ⟨?_, i2⟩
    intro hmem
    obtain ⟨x, hx, hxn⟩ := List.mem_map.mp hmem
    have hxn2 : x.2 = n := hxn
    have hx2 : (x.1, n) ∈ s.held := by
      rw [← hxn2]
      exact hx
    exact hnot x.1 hx2
  · intro w1 p hp
    rcases List.mem_cons.mp hp with heq | hin
    · rw [(Prod.mk.inj heq).2]
      exact hlt
    · exact i3 w1 p hin


/-- Every action keeps the lease invariant. -/
theorem inv_step (s : Pool) (a : Action) (hinv : s.Inv) : (s.step a).Inv := by
  cases a with
  | pick w clock =>
    rcases pickNodeLoop_cases s.e.interval clock s.e.nodes.entries 0 s.h with
      hnone | ⟨n, i, a, hret, hi, _, hfree, hheap⟩
    · have hstep : s.step (Action.pick w clock) = { s with h := s.h } := by
        simp [Pool.step, Enumerator.pickNode, hnone]
      rw [hstep]
      exact hinv
    · have hstep : s.step (Action.pick w clock) =
          { s with h := s.h.write n (s.h.cell n).reserve.2, held := (w, n) :: s.held } := by
        have h1 : (s.e.pickNode s.h clock).1 = (some n, true) := hret
        have h2 : (s.e.pickNode s.h clock).2 = s.h.write n (s.h.cell n).reserve.2 := hheap
        simp [Pool.step, h1, h2]
      rw [hstep]
      have hlt : n < s.h.next := hinv.2.2.2.1 ⟨a, n⟩ (List.getElem?_mem hi)
      exact inv_acquire s w n hinv hfree hlt
  | reserveSeed w n =>
    by_cases hseed : n ∈ s.e.seeds
    · cases hr : (s.h.cell n).reserve.1 with
      | true =>
        have hstep : s.step (Action.reserveSeed w n) =
            { s with h := s.h.write n (s.h.cell n).reserve.2, held := (w, n) :: s.held } := by
          simp [Pool.step, hseed, hr]
        rw [hstep]
        exact inv_acquire s w n hinv ((reserve_flag _).mp hr) (hinv.2.2.2.2 n hseed)
      | false =>
        have hstep : s.step (Action.reserveSeed w n) = { s with h := s.h } := by
          simp [Pool.step, hseed, hr, write_reserve_of_fail s.h n hr]
        rw [hstep]
        exact hinv
    · have hstep : s.step (Action.reserveSeed w n) = s := by
        simp [Pool.step, hseed]
      rw [hstep]
      exact hinv
  | check w n drv now =>
    by_cases hmem : (w, n) ∈ s.held
    · have hstep : s.step (Action.check w n drv now) =
          { h := (checkNode drv now s.h s.e n).2.1, e := (checkNode drv now s.h s.e n).2.2,
            held := s.held.erase (w, n) } := by
        simp [Pool.step, hmem]
      rw [hstep]
      obtain ⟨i1, i2, i3, i4, i5⟩ := hinv
      have hn : n < s.h.next := i3 w n hmem
      obtain ⟨f1, f2, f3, f4, f5, f6⟩ := checkNode_pool_frame drv now s.h s.e n hn i4
      have hnd : s.held.Nodup := List.Nodup.of_map Prod.snd i2
      refine ⟨?_, ?_, ?_, f5, ?_⟩
      · intro p
        show (∃ w1 : Nat, (w1, p) ∈ s.held.erase (w, n)) ↔
          ((checkNode drv now s.h s.e n).2.1.cell p).busy ≠ Census.free
        by_cases hp : p = n
        · subst hp
          constructor
          · rintro ⟨w1, hw1⟩
            have hboth := (List.Nodup.mem_erase_iff hnd).mp hw1
            have heq : (w1, p) = (w, p) :=
              List.inj_on_of_nodup_map i2 hboth.2 hmem rfl
            exact absurd heq hboth.1
          · intro hb
            exact absurd f2 hb
        · have hne : ∀ w1 : Nat, (w1, p) ≠ (w, n) := fun w1 heq => hp (Prod.mk.inj heq).2
          constructor
          · rintro ⟨w1, hw1⟩
            have hin : (w1, p) ∈ s.held := List.mem_of_mem_erase hw1
            have hlt : p < s.h.next := i3 w1 p hin
            rw [f3 p hp hlt]
            exact (i1 p).mp ⟨w1, hin⟩
          · intro hb
            by_cases hlt : p < s.h.next
            · rw [f3 p hp hlt] at hb
              obtain ⟨w1, hw1⟩ := (i1 p).mpr hb
              exact ⟨w1, (List.mem_erase_of_ne (hne w1)).mpr hw1⟩
            · have hold : (s.h.cell p).busy = Census.free := by
                by_contra hcon
                obtain ⟨w1, hw1⟩ := (i1 p).mpr hcon
                exact hlt (i3 w1 p hw1)
              rcases f4 p (Nat.le_of_not_lt hlt) with hsame | hfr
              · rw [hsame] at hb
                exact absurd hold hb
              · exact absurd hfr hb
      · exact List.Nodup.sublist ((List.erase_sublist (w, n) s.held).map Prod.snd) i2
      · intro w1 p hp
        exact Nat.lt_of_lt_of_le (i3 w1 p (List.mem_of_mem_erase hp)) f1
      · intro m hm
        have hm2 : m ∈ s.e.seeds := by
          have hm1 : m ∈ (checkNode drv now s.h s.e n).2.2.seeds := hm
          rwa [f6] at hm1
        exact Nat.lt_of_lt_of_le (i5 m hm2) f1
    · have hstep : s.step (Action.check w n drv now) = s := by
        simp [Pool.step, hmem]
      rw [hstep]
      exact hinv

/-- Every sequence of actions keeps the lease invariant. -/
theorem inv_run (actions : List Action) :
    ∀ s : Pool, s.Inv → (s.run actions).Inv := by
  induction actions with
  | nil => intro s hinv; exact hinv
  | cons a rest ih =>
    intro s hinv
    exact ih (s.step a) (inv_step s a hinv)


/-- On a registry whose only stale node is the free node `n`, `pickNode` returns
`n` and takes its lease, touching nothing else. -/
theorem pickNode_only_stale (e : Enumerator) (h : Heap) (n : Ptr) (a : String)
    (clock : Nat → Time)
    (hkey : e.nodes.lookup a = some n)
    (hfree : (h.cell n).busy = Census.free)
    (hstale : ∀ i : Nat, (h.cell n).isStale e.interval (clock i) = true)
    (hothers : ∀ kv ∈ e.nodes.entries, kv.2 ≠ n →
      ∀ i : Nat, (h.cell kv.2).isStale e.interval (clock i) = false) :
    (e.pickNode h clock).1 = (some n, true) ∧
    (e.pickNode h clock).2 = h.write n (h.cell n).reserve.2 := by
  have hmem : (⟨a, n⟩ : Sigma fun _ : String => Ptr) ∈ e.nodes.entries :=
    AList.mem_lookup_iff.mp hkey
  obtain ⟨j, hj⟩ := List.getElem?_of_mem hmem
  rcases pickNodeLoop_cases e.interval clock e.nodes.entries 0 h with
    hnone | ⟨m, i, b, hret, hi, hs, _, hheap⟩
  · have hflag := pickNodeLoop_some e.interval clock e.nodes.entries 0 h
      ⟨j, ⟨a, n⟩, hj, hstale (0 + j), hfree⟩
    rw [hnone] at hflag
    exact Bool.noConfusion hflag
  · have hmn : m = n := by
      by_contra hne
      have hfalse := hothers ⟨b, m⟩ (List.getElem?_mem hi) hne (0 + i)
      rw [hs] at hfalse
      exact Bool.noConfusion hfalse
    subst hmn
    exact ⟨hret, hheap⟩

/-- On a registry whose only possibly stale node has its lease taken,
`pickNode` finds no work and changes nothing. -/
theorem pickNode_only_stale_taken (e : Enumerator) (h : Heap) (n : Ptr) (clock : Nat → Time)
    (hbusy : (h.cell n).busy ≠ Census.free)
    (hothers : ∀ kv ∈ e.nodes.entries, kv.2 ≠ n →
      ∀ i : Nat, (h.cell kv.2).isStale e.interval (clock i) = false) :
    e.pickNode h clock = ((none, false), h) := by
  apply pickNodeLoop_none
  intro i kv hi hel
  by_cases hkv : kv.2 = n
  · rw [hkv] at hel
    exact hbusy hel.2
  · have hfalse := hothers kv (List.getElem?_mem hi) hkv (0 + i)
    rw [hel.1] at hfalse
    exact Bool.noConfusion hfalse

/-- Every lease of the sample heap is free. -/
theorem sampleFreeHeap_free (p : Ptr) : (sampleFreeHeap.cell p).busy = Census.free := by
  simp only [sampleFreeHeap]
  split_ifs <;> rfl

/-- C19: in every state reached from a pool where nobody holds a node and every
lease is free, by workers that take a node only through `pickNode` or a
successful `reserve` on a seed and give it up only through `checkNode`, no node
is held by two workers and a lease is busy exactly when its node is held; in
particular, when three calls of `pickNode` follow each other on a registry
whose only stale node is `n`, held by nobody, the first returns `n` and the
other two return no work. -/
theorem lease_mutual_exclusion (s0 : Pool) (actions : List Action)
    (hheld : s0.held = [])
    (hfree : ∀ p : Ptr, (s0.h.cell p).busy = Census.free)
    (hnodes : ∀ kv ∈ s0.e.nodes.entries, kv.2 < s0.h.next)
    (hseeds : ∀ n ∈ s0.e.seeds, n < s0.h.next) :
    (∀ (w1 w2 : Nat) (n : Ptr),
      (w1, n) ∈ (s0.run actions).held → (w2, n) ∈ (s0.run actions).held → w1 = w2) ∧
    (∀ n : Ptr, (∃ w : Nat, (w, n) ∈ (s0.run actions).held) ↔
      ((s0.run actions).h.cell n).isBusy = true) ∧
    (∀ (n : Ptr) (a : String) (c1 c2 c3 : Nat → Time),
      (s0.run actions).e.nodes.lookup a = some n →
      (∀ w : Nat, (w, n) ∉ (s0.run actions).held) →
      (∀ i : Nat, ((s0.run actions).h.cell n).isStale (s0.run actions).e.interval (c1 i) = true) →
      (∀ kv ∈ (s0.run actions).e.nodes.entries, kv.2 ≠ n → ∀ i : Nat,
        ((s0.run actions).h.cell kv.2).isStale (s0.run actions).e.interval (c1 i) = false ∧
        ((s0.run actions).h.cell kv.2).isStale (s0.run actions).e.interval (c2 i) = false ∧
        ((s0.run actions).h.cell kv.2).isStale (s0.run actions).e.interval (c3 i) = false) →
      ((s0.run actions).e.pickNode (s0.run actions).h c1).1 = (some n, true) ∧
      ((s0.run actions).e.pickNode
        ((s0.run actions).e.pickNode (s0.run actions).h c1).2 c2).1 = (none, false) ∧
      ((s0.run actions).e.pickNode
        ((s0.run actions).e.pickNode
          ((s0.run actions).e.pickNode (s0.run actions).h c1).2 c2).2 c3).1
        = (none, false)) := by
  have hinit : s0.Inv := by
    refine ⟨?_, ?_, ?_, hnodes, hseeds⟩
    · intro p
      rw [hheld]
      constructor
      · rintro ⟨w, hw⟩
        exact absurd hw (List.not_mem_nil _)
      · intro hb
        exact absurd (hfree p) hb
    · rw [hheld]
      exact List.nodup_nil
    · intro w p hp
      rw [hheld] at hp
      exact absurd hp (List.not_mem_nil _)
  obtain ⟨i1, i2, _, _, _⟩ := inv_run actions s0 hinit
  generalize s0.run actions = s at i1 i2
  refine ⟨?_, ?_, ?_⟩
  · intro w1 w2 n h1 h2
    have heq : (w1, n) = (w2, n) := List.inj_on_of_nodup_map i2 h1 h2 rfl
    exact (Prod.mk.inj heq).1
  · intro n
    rw [i1 n]
    by_cases hb : (s.h.cell n).busy = Census.free <;> simp [Node.isBusy, hb]
  · intro n a c1 c2 c3 hkey hnot hstale hothers
    have hfr : (s.h.cell n).busy = Census.free := by
      by_contra hcon
      obtain ⟨w, hw⟩ := (i1 n).mpr hcon
      exact hnot w hw
    obtain ⟨r1, r2⟩ := pickNode_only_stale s.e s.h n a c1 hkey hfr hstale
      (fun kv hkv hne i => (hothers kv hkv hne i).1)
    have hbusy : ((s.h.write n (s.h.cell n).reserve.2).cell n).busy ≠ Census.free := by
      simp [Heap.write, Node.reserve, compareAndSwap, hfr, Census.free, Census.busy]
    have hcell : ∀ q : Ptr, q ≠ n →
        (s.h.write n (s.h.cell n).reserve.2).cell q = s.h.cell q := by
      intro q hq
      simp [Heap.write, Function.update_noteq hq]
    have hsecond := pickNode_only_stale_taken s.e (s.h.write n (s.h.cell n).reserve.2) n c2
      hbusy (fun kv hkv hne i => by rw [hcell kv.2 hne]; exact (hothers kv hkv hne i).2.1)
    have hthird := pickNode_only_stale_taken s.e (s.h.write n (s.h.cell n).reserve.2) n c3
      hbusy (fun kv hkv hne i => by rw [hcell kv.2 hne]; exact (hothers kv hkv hne i).2.2)
    refine ⟨r1, ?_, ?_⟩
    · rw [r2, hsecond]
    · rw [r2, hsecond, hthird]


theorem lease_mutual_exclusion_witness :
    samplePool.held = [] ∧
    (samplePool.run [Action.reserveSeed 7 0, Action.reserveSeed 8 0]).held = [(7, 0)] ∧
    (samplePool.run sampleActions).held = [] ∧
    (samplePool.run sampleActions).e.nodes.lookup "10.0.0.1:18555" = some 0 ∧
    (((samplePool.run sampleActions).e.pickNode (samplePool.run sampleActions).h
        (fun _ => 200)).1 = (some 0, true) ∧
     ((samplePool.run sampleActions).e.pickNode
        ((samplePool.run sampleActions).e.pickNode (samplePool.run sampleActions).h
          (fun _ => 200)).2 (fun _ => 201)).1 = (none, false) ∧
     ((samplePool.run sampleActions).e.pickNode
        ((samplePool.run sampleActions).e.pickNode
          ((samplePool.run sampleActions).e.pickNode (samplePool.run sampleActions).h
            (fun _ => 200)).2 (fun _ => 201)).2 (fun _ => 202)).1 = (none, false)) :=
  have hheld : (samplePool.run sampleActions).held = [] := by decide
  have hent : (samplePool.run sampleActions).e.nodes.entries
      = [⟨"10.0.0.2:18555", 1⟩, ⟨"10.0.0.1:18555", 0⟩] := by decide
  ⟨rfl, by decide, hheld, by decide,
   (lease_mutual_exclusion samplePool sampleActions rfl sampleFreeHeap_free
      (by decide) (by decide)).2.2 0 "10.0.0.1:18555"
      (fun _ => 200) (fun _ => 201) (fun _ => 202) (by decide)
      (fun w hw => by
        rw [hheld] at hw
        exact absurd hw (List.not_mem_nil _))
      (fun _ => show ((samplePool.run sampleActions).h.cell 0).isStale
          (samplePool.run sampleActions).e.interval 200 = true by decide)
      (fun kv hkv hne _ => by
        rw [hent] at hkv
        rcases List.mem_cons.mp hkv with rfl | hkv1
        · exact ⟨show ((samplePool.run sampleActions).h.cell 1).isStale
              (samplePool.run sampleActions).e.interval 200 = false by decide,
            show ((samplePool.run sampleActions).h.cell 1).isStale
              (samplePool.run sampleActions).e.interval 201 = false by decide,
            show ((samplePool.run sampleActions).h.cell 1).isStale
              (samplePool.run sampleActions).e.interval 202 = false by decide⟩
        · rcases List.mem_cons.mp hkv1 with rfl | hkv2
          · exact absurd rfl hne
          · exact absurd hkv2 (List.not_mem_nil _))⟩

end Census
